import Mathlib

/-!
# Camera / lidar fusion: a shallow embedding of camFusion_Student.cpp

The definitions below follow the functions of `src/camFusion_Student.cpp`
(`clusterLidarWithROI`, `clusterKptMatchesWithROI`, `computeTTCCamera`,
`computeTTCLidar`, `findBoundingBoxesContainingKeypoint`, `matchBoundingBoxes`).

Conventions of the embedding:

* `std::vector` is a `List`; an access through `operator[]`, `.at()` or an
  iterator that leaves the container is the fault `Fault.outOfRange`, a failed
  `assert` is `Fault.assertFailed`; fallible code lives in `Except Fault`.
* `float` / `double` values are rationals (`ℚ`). Where a result is truncated to
  `int` (the shrunk rectangle of `clusterLidarWithROI`) every operation is rounded
  as IEEE-754 does, to binary32 (`f32`) or binary64 (`f64`), nearest with ties to
  even; overflow to infinity is not modelled. Elsewhere rounding error is not
  modelled. `cv::norm` (a square root) is not a rational function, so the functions
  that call it take the norm of a difference vector `(dx, dy)` as a parameter `norm`.
* A `double` result that can leave the finite numbers (a division by zero, the
  `NAN` sentinel) is a `Dbl`: a rational, an infinity or not-a-number, with the
  IEEE-754 rules for division and multiplication; zero is the positive zero.
* `std::sort`, `std::make_heap` and `std::sort_heap` are library functions. The
  sort is an insertion sort (any sort gives the same ascending list of numbers).
  The heap functions follow the sift-down of libstdc++ (`__adjust_heap`): the
  greater child is the right one unless it compares less than the left one, and
  the sifted value moves below every child on its path that does not compare less
  than it.
* `size_t` counters are `Nat`: a vote counter is bounded by the number of
  correspondences, so no wrap-around occurs.
* `std::map<int,int>` is an association list kept sorted by key, one entry per key.
* The OpenCV and project headers are outside the file; the fields used here
  (`cv::Rect`, `cv::Point2f`, `cv::KeyPoint::pt`, `cv::DMatch::queryIdx/trainIdx`,
  `LidarPoint`, `BoundingBox`, `DataFrame`) are declared with the shapes the
  source relies on.
-/

namespace CamFusion

/-! ## Faults and containers -/

/-- Ways in which the embedded code can leave its defined behaviour. -/
inductive Fault where
  | outOfRange
  | assertFailed
deriving DecidableEq, Repr

instance instDecidableEqExceptFault {α : Type} [DecidableEq α] : DecidableEq (Except Fault α)
  | .ok a, .ok b => if h : a = b then isTrue (by rw [h]) else isFalse (fun e => h (by cases e; rfl))
  | .error a, .error b => if h : a = b then isTrue (by rw [h]) else isFalse (fun e => h (by cases e; rfl))
  | .ok _, .error _ => isFalse (fun e => by cases e)
  | .error _, .ok _ => isFalse (fun e => by cases e)

/-- Read `v[i]` of a vector with a `size_t` index. -/
def vecAt {α : Type} (v : List α) (i : Nat) : Except Fault α :=
  match v[i]? with
  | some a => .ok a
  | none => .error .outOfRange

/-- Read `v[i]` of a vector with an `int` index (a negative index is out of range). -/
def vecAtInt {α : Type} (v : List α) (i : Int) : Except Fault α :=
  if 0 ≤ i then vecAt v i.toNat else .error .outOfRange

/-- Write `v[i] = a` on a vector. -/
def vecSet {α : Type} (v : List α) (i : Nat) (a : α) : Except Fault (List α) :=
  if i < v.length then .ok (v.set i a) else .error .outOfRange

/-! ## Double values that can be infinite or not-a-number -/

/-- Value of a `double` expression: a number, an infinity or not-a-number. -/
inductive Dbl where
  | fin (q : ℚ)
  | posInf
  | negInf
  | nan
deriving DecidableEq, Repr

/-- Unary minus on `double`. -/
def Dbl.neg : Dbl → Dbl
  | .fin q => .fin (-q)
  | .posInf => .negInf
  | .negInf => .posInf
  | .nan => .nan

/-- Division on `double` (IEEE-754; a zero divisor is the positive zero). -/
def Dbl.div : Dbl → Dbl → Dbl
  | .nan, _ => .nan
  | _, .nan => .nan
  | .fin a, .fin b =>
    if b = 0 then (if a = 0 then .nan else if 0 < a then .posInf else .negInf)
    else .fin (a / b)
  | .fin _, .posInf => .fin 0
  | .fin _, .negInf => .fin 0
  | .posInf, .fin b => if 0 ≤ b then .posInf else .negInf
  | .negInf, .fin b => if 0 ≤ b then .negInf else .posInf
  | .posInf, .posInf => .nan
  | .posInf, .negInf => .nan
  | .negInf, .posInf => .nan
  | .negInf, .negInf => .nan

/-- Multiplication on `double` (IEEE-754). -/
def Dbl.mul : Dbl → Dbl → Dbl
  | .nan, _ => .nan
  | _, .nan => .nan
  | .fin a, .fin b => .fin (a * b)
  | .fin a, .posInf => if a = 0 then .nan else if 0 < a then .posInf else .negInf
  | .fin a, .negInf => if a = 0 then .nan else if 0 < a then .negInf else .posInf
  | .posInf, .fin b => if b = 0 then .nan else if 0 < b then .posInf else .negInf
  | .negInf, .fin b => if b = 0 then .nan else if 0 < b then .negInf else .posInf
  | .posInf, .posInf => .posInf
  | .posInf, .negInf => .negInf
  | .negInf, .posInf => .negInf
  | .negInf, .negInf => .posInf

/-! ## Data model -/

/-- Integer pixel position, `cv::Point`. -/
structure Point where
  x : Int
  y : Int
deriving DecidableEq, Repr

/-- Sub-pixel position, `cv::Point2f`. -/
structure Point2f where
  x : ℚ
  y : ℚ
deriving DecidableEq, Repr

/-- Axis-aligned rectangle in pixel space, `cv::Rect`. -/
structure Rect where
  x : Int
  y : Int
  width : Int
  height : Int
deriving DecidableEq, Repr

/-- Feature keypoint, `cv::KeyPoint` (only its position is used). -/
structure KeyPoint where
  pt : Point2f
deriving DecidableEq, Repr

/-- Feature correspondence, `cv::DMatch`: `queryIdx` indexes the previous
frame's keypoints, `trainIdx` the current frame's. -/
structure DMatch where
  queryIdx : Int
  trainIdx : Int
deriving DecidableEq, Repr

/-- Range measurement, `LidarPoint`: position and reflectivity. -/
structure LidarPoint where
  x : ℚ
  y : ℚ
  z : ℚ
  r : ℚ
deriving DecidableEq, Repr

/-- Detected region, `BoundingBox`. -/
structure BoundingBox where
  boxID : Int
  roi : Rect
  lidarPoints : List LidarPoint
  keypoints : List KeyPoint
  kptMatches : List DMatch
deriving DecidableEq, Repr

/-- Per-frame payload, `DataFrame` (keypoints and regions). -/
structure DataFrame where
  keypoints : List KeyPoint
  boundingBoxes : List BoundingBox
deriving DecidableEq, Repr

/-- Rounding of `cv::saturate_cast<int>` on a floating value: to the nearest
integer, ties to the even one. -/
def cvRound (v : ℚ) : Int :=
  let f := ⌊v⌋
  let r := v - f
  if r < 1 / 2 then f
  else if 1 / 2 < r then f + 1
  else if f % 2 = 0 then f else f + 1

/-- Conversion `cv::Point2f → cv::Point` applied when a keypoint position is
passed to `cv::Rect::contains`. -/
def Point2f.toPoint (p : Point2f) : Point :=
  { x := cvRound p.x, y := cvRound p.y }

/-- Test `cv::Rect::contains`: left/top edges inclusive, right/bottom exclusive. -/
def Rect.contains (r : Rect) (pt : Point) : Bool :=
  decide (r.x ≤ pt.x) && decide (pt.x < r.x + r.width) &&
    decide (r.y ≤ pt.y) && decide (pt.y < r.y + r.height)

/-- Assignment `m[k] = v` on a `std::map<int,int>` kept as a key-sorted list. -/
def mapAssign : List (Int × Int) → Int → Int → List (Int × Int)
  | [], k, v => [(k, v)]
  | (k0, v0) :: m, k, v =>
    if k < k0 then (k, v) :: (k0, v0) :: m
    else if k = k0 then (k, v) :: m
    else (k0, v0) :: mapAssign m k v

/-- Lookup `m.find(k)` on a `std::map<int,int>`. -/
def mapFind : List (Int × Int) → Int → Option Int
  | [], _ => none
  | (k0, v0) :: m, k => if k = k0 then some v0 else mapFind m k

/-! ## matchBoundingBoxes -/

/-- Indices of the regions whose rectangle contains the keypoint, in increasing
order (`findBoundingBoxesContainingKeypoint`). -/
def findBoundingBoxesContainingKeypoint (kpt : KeyPoint)
    (bounding_boxes : List BoundingBox) : List Nat :=
  (List.range bounding_boxes.length).filter fun i =>
    match bounding_boxes[i]? with
    | some b => b.roi.contains kpt.pt.toPoint
    | none => false

/-- Increment `++cntKptsInMatchedBB[prevBBID][currBBID]`. -/
def incrementVote (cnt : List (List Nat)) (prevBBID currBBID : Nat) :
    Except Fault (List (List Nat)) := do
  let row ← vecAt cnt prevBBID
  let v ← vecAt row currBBID
  let row2 ← vecSet row currBBID (v + 1)
  vecSet cnt prevBBID row2

/-- One iteration of the voting loop of `matchBoundingBoxes` (lines 309-327):
the votes of one correspondence. -/
def voteForMatch (prevFrame currFrame : DataFrame) (cnt : List (List Nat)) (m : DMatch) :
    Except Fault (List (List Nat)) := do
  let prevKpt ← vecAtInt prevFrame.keypoints m.queryIdx
  let currKpt ← vecAtInt currFrame.keypoints m.trainIdx
  let prevBoxIDs := findBoundingBoxesContainingKeypoint prevKpt prevFrame.boundingBoxes
  let currBoxIDs := findBoundingBoxesContainingKeypoint currKpt currFrame.boundingBoxes
  prevBoxIDs.foldlM
    (fun c1 prevBBID => currBoxIDs.foldlM (fun c2 currBBID => incrementVote c2 prevBBID currBBID) c1)
    cnt

/-- Vote matrix `cntKptsInMatchedBB` after the voting loop (lines 300-327):
one row per previous region, one column per current region. -/
def countVotes (kptMatches : List DMatch) (prevFrame currFrame : DataFrame) :
    Except Fault (List (List Nat)) :=
  kptMatches.foldlM (voteForMatch prevFrame currFrame)
    (List.replicate prevFrame.boundingBoxes.length
      (List.replicate currFrame.boundingBoxes.length 0))

/-- Body of the inner loop at lines 339-348: update of `max_prev_indices[curr_ind]`
and `max_curr_indices[prev_ind]`. The state is the pair
`(max_prev_indices, max_curr_indices)`. -/
def argmaxStep (cnt : List (List Nat)) (prev_ind : Nat) (s : List Nat × List Nat)
    (curr_ind : Nat) : Except Fault (List Nat × List Nat) := do
  let row ← vecAt cnt prev_ind
  let v ← vecAt row curr_ind
  let bestPrev ← vecAt s.1 curr_ind
  let rowBest ← vecAt cnt bestPrev
  let vBestPrev ← vecAt rowBest curr_ind
  let maxPrev ← vecSet s.1 curr_ind (if v > vBestPrev then prev_ind else bestPrev)
  let bestCurr ← vecAt s.2 prev_ind
  let vBestCurr ← vecAt row bestCurr
  let maxCurr ← vecSet s.2 prev_ind (if v > vBestCurr then curr_ind else bestCurr)
  pure (maxPrev, maxCurr)

/-- The two nested loops at lines 334-349: returns
`(max_prev_indices, max_curr_indices)`. -/
def argmaxIndices (cnt : List (List Nat)) (prevBBSize currBBSize : Nat) :
    Except Fault (List Nat × List Nat) :=
  (List.range prevBBSize).foldlM
    (fun s prev_ind => (List.range currBBSize).foldlM (argmaxStep cnt prev_ind) s)
    (List.replicate currBBSize 0, List.replicate prevBBSize 0)

/-- Body of the loop at lines 355-366 (branch `prevBBSize <= currBBSize`). -/
def fillFromCurr (prevFrame currFrame : DataFrame) (max_prev_indices : List Nat)
    (bbBestMatches : List (Int × Int)) (curr_ind : Nat) : Except Fault (List (Int × Int)) := do
  let best ← vecAt max_prev_indices curr_ind
  let prevBox ← vecAt prevFrame.boundingBoxes best
  let currBox ← vecAt currFrame.boundingBoxes curr_ind
  let bb := mapAssign bbBestMatches prevBox.boxID currBox.boxID
  if prevBox.boxID ≠ (best : Int) then .error .assertFailed
  else if currBox.boxID ≠ (curr_ind : Int) then .error .assertFailed
  else pure bb

/-- Body of the loop at lines 370-381 (branch `prevBBSize > currBBSize`). -/
def fillFromPrev (prevFrame currFrame : DataFrame) (max_curr_indices : List Nat)
    (bbBestMatches : List (Int × Int)) (prev_ind : Nat) : Except Fault (List (Int × Int)) := do
  let prevBox ← vecAt prevFrame.boundingBoxes prev_ind
  let best ← vecAt max_curr_indices prev_ind
  let currBox ← vecAt currFrame.boundingBoxes best
  let bb := mapAssign bbBestMatches prevBox.boxID currBox.boxID
  if prevBox.boxID ≠ (prev_ind : Int) then .error .assertFailed
  else if currBox.boxID ≠ (best : Int) then .error .assertFailed
  else pure bb

/-- Lines 329-382 of `matchBoundingBoxes`: from the vote matrix to the filled map. -/
def selectBestMatches (cnt : List (List Nat)) (bbBestMatches : List (Int × Int))
    (prevFrame currFrame : DataFrame) : Except Fault (List (Int × Int)) := do
  let prevBBSize := prevFrame.boundingBoxes.length
  let currBBSize := currFrame.boundingBoxes.length
  let idx ← argmaxIndices cnt prevBBSize currBBSize
  if prevBBSize ≤ currBBSize then
    (List.range currBBSize).foldlM (fillFromCurr prevFrame currFrame idx.1) bbBestMatches
  else
    (List.range prevBBSize).foldlM (fillFromPrev prevFrame currFrame idx.2) bbBestMatches

/-- The function `matchBoundingBoxes`: `bbBestMatches` is passed in and returned. -/
def matchBoundingBoxes (kptMatches : List DMatch) (bbBestMatches : List (Int × Int))
    (prevFrame currFrame : DataFrame) : Except Fault (List (Int × Int)) := do
  let cnt ← countVotes kptMatches prevFrame currFrame
  selectBestMatches cnt bbBestMatches prevFrame currFrame

/-! ## clusterLidarWithROI -/

/-- Conversion `double → int` of an assignment to an `int` field: truncation
toward zero. -/
def truncToInt (q : ℚ) : Int :=
  if 0 ≤ q then ⌊q⌋ else ⌈q⌉

/-- Power of two with an integer exponent. -/
def twoPow (k : Int) : ℚ :=
  if 0 ≤ k then ((2 ^ k.toNat : Nat) : ℚ) else 1 / ((2 ^ (-k).toNat : Nat) : ℚ)

/-- Number of halvings that bring a number `a ≥ 1` below 2. -/
def log2Up : Nat → ℚ → Int
  | 0, _ => 0
  | fuel + 1, a => if 2 ≤ a then log2Up fuel (a / 2) + 1 else 0

/-- Minus the number of doublings that bring a number `0 < a < 1` to 1 or above. -/
def log2Down : Nat → ℚ → Int
  | 0, _ => 0
  | fuel + 1, a => if a < 1 then log2Down fuel (a * 2) - 1 else 0

/-- Binary exponent `e` of a positive number: `2 ^ e ≤ a < 2 ^ (e + 1)`. -/
def floorLog2 (a : ℚ) : Int :=
  if 1 ≤ a then log2Up (a.num.natAbs + a.den) a else log2Down (a.num.natAbs + a.den) a

/-- Rounding to the nearest binary floating-point number with `precision`
significand bits and least normal exponent `emin`, ties to the even significand
(the default IEEE-754 rounding; below `2 ^ emin` the spacing is that of the
subnormal numbers). -/
def roundToBinary (precision : Nat) (emin : Int) (q : ℚ) : ℚ :=
  if q = 0 then 0
  else
    let e := max (floorLog2 |q|) emin
    let quantum := twoPow (e - (precision - 1 : Nat))
    (cvRound (q / quantum) : ℚ) * quantum

/-- Rounding to `float` (binary32). -/
def f32 (q : ℚ) : ℚ := roundToBinary 24 (-126) q

/-- Rounding to `double` (binary64). -/
def f64 (q : ℚ) : ℚ := roundToBinary 53 (-1022) q

/-- Rectangle `smallerBox` of lines 42-46: the region rectangle shrunk by the
`float` value `shrinkFactor`. In `shrinkFactor * roi.width / 2.0` the `int` becomes
a `float`, the product is a `float`, the quotient and the sum with `roi.x` are
`double`; in `roi.width * (1 - shrinkFactor)` the difference and the product are
`float`. Each field is then truncated to `int`. -/
def shrinkBox (roi : Rect) (shrinkFactor : ℚ) : Rect :=
  { x := truncToInt (f64 (f64 roi.x + f64 (f32 (shrinkFactor * f32 roi.width) / 2)))
    y := truncToInt (f64 (f64 roi.y + f64 (f32 (shrinkFactor * f32 roi.height) / 2)))
    width := truncToInt (f32 (f32 roi.width * f32 (1 - shrinkFactor)))
    height := truncToInt (f32 (f32 roi.height * f32 (1 - shrinkFactor))) }

/-- Test of line 49 for the region at position `i`: the pixel lies inside the
shrunk rectangle of that region. -/
def inShrunkBox (boundingBoxes : List BoundingBox) (shrinkFactor : ℚ) (pt : Point)
    (i : Nat) : Bool :=
  match boundingBoxes[i]? with
  | some b => (shrinkBox b.roi shrinkFactor).contains pt
  | none => false

/-- Vector `enclosingBoxes` of lines 38-54: the positions (iterators) of all
regions whose shrunk rectangle contains the pixel, in region order. -/
def enclosingBoxes (boundingBoxes : List BoundingBox) (shrinkFactor : ℚ) (pt : Point) :
    List Nat :=
  (List.range boundingBoxes.length).filter (inShrunkBox boundingBoxes shrinkFactor pt)

/-- Statement `it->lidarPoints.push_back(p)` on the region at position `i`. -/
def pushLidarPoint (boundingBoxes : List BoundingBox) (i : Nat) (p : LidarPoint) :
    List BoundingBox :=
  match boundingBoxes[i]? with
  | some b => boundingBoxes.set i { b with lidarPoints := b.lidarPoints ++ [p] }
  | none => boundingBoxes

/-- Body of the loop over the lidar points (lines 24-63). The projection of
lines 27-36 (OpenCV matrix product and division) is the parameter `project`. -/
def clusterLidarStep (project : LidarPoint → Point) (shrinkFactor : ℚ)
    (boundingBoxes : List BoundingBox) (p : LidarPoint) : List BoundingBox :=
  match enclosingBoxes boundingBoxes shrinkFactor (project p) with
  | [i] => pushLidarPoint boundingBoxes i p
  | _ => boundingBoxes

/-- The function `clusterLidarWithROI`: returns the regions with their point
collections extended. -/
def clusterLidarWithROI (project : LidarPoint → Point) (boundingBoxes : List BoundingBox)
    (lidarPoints : List LidarPoint) (shrinkFactor : ℚ) : List BoundingBox :=
  lidarPoints.foldl (clusterLidarStep project shrinkFactor) boundingBoxes

/-- Boolean test built from the test of line 49: the pixel passes it for the
region at position `r` and for no other region. It writes the appended points as a
filter; `EnclosedOnlyBy` states the same from the rectangles. -/
def enclosedOnlyBy (boundingBoxes : List BoundingBox) (shrinkFactor : ℚ) (r : Nat)
    (pt : Point) : Bool :=
  inShrunkBox boundingBoxes shrinkFactor pt r &&
    (List.range boundingBoxes.length).all fun i =>
      decide (i = r) || !inShrunkBox boundingBoxes shrinkFactor pt i

/-! ## clusterKptMatchesWithROI -/

/-- Value `cv::norm(a.pt - b.pt)` for a given norm of difference vectors. -/
def kptDistance (norm : ℚ → ℚ → ℚ) (a b : KeyPoint) : ℚ :=
  norm (a.pt.x - b.pt.x) (a.pt.y - b.pt.y)

/-- Body of the first loop (lines 143-153): the displacement of an in-rectangle
correspondence is inserted into the ascending multiset `euclideanDistances`. -/
def collectStep (norm : ℚ → ℚ → ℚ) (roi : Rect) (kptsPrev kptsCurr : List KeyPoint)
    (euclideanDistances : List ℚ) (m : DMatch) : Except Fault (List ℚ) := do
  let currKpt ← vecAtInt kptsCurr m.trainIdx
  if roi.contains currKpt.pt.toPoint then
    let prevKpt ← vecAtInt kptsPrev m.queryIdx
    pure (euclideanDistances.orderedInsert (· ≤ ·) (kptDistance norm currKpt prevKpt))
  else
    pure euclideanDistances

/-- Multiset `euclideanDistances` after the first loop, as an ascending list. -/
def collectDistances (norm : ℚ → ℚ → ℚ) (roi : Rect) (kptsPrev kptsCurr : List KeyPoint)
    (kptMatches : List DMatch) : Except Fault (List ℚ) :=
  kptMatches.foldlM (collectStep norm roi kptsPrev kptsCurr) []

/-- Rounding of `std::round`: to the nearest integer, ties away from zero. -/
def stdRound (q : ℚ) : Int :=
  if 0 ≤ q then ⌊q + 1 / 2⌋ else ⌈q - 1 / 2⌉

/-- Constant `filterOutliersRatio` of line 139. -/
def filterOutliersRatio : ℚ := 1 / 5

/-- Offset `r_offset` of line 164. -/
def rOffset (size : Nat) : Nat :=
  (stdRound (filterOutliersRatio * size)).toNat

/-- Dereference of a reverse iterator of the multiset. A reverse iterator is
its distance from `crbegin()`: position 0 is the largest element, position
`size - 1` the smallest, and `crend()` is position `size`, which holds no
element. -/
def derefReverse (euclideanDistances : List ℚ) (pos : Nat) : Except Fault ℚ :=
  vecAt euclideanDistances.reverse pos

/-- Lines 164-167: `it = crend()`, `std::advance(it, r_offset)`, `*it`. -/
def readCutoff (euclideanDistances : List ℚ) : Except Fault ℚ :=
  let r_offset := rOffset euclideanDistances.length
  let it := euclideanDistances.length
  derefReverse euclideanDistances (it + r_offset)

/-- Body of the second loop (lines 169-183). -/
def retainStep (norm : ℚ → ℚ → ℚ) (kptsPrev kptsCurr : List KeyPoint)
    (filterKptsWithDistHigherThan : ℚ) (boundingBox : BoundingBox) (m : DMatch) :
    Except Fault BoundingBox := do
  let currKpt ← vecAtInt kptsCurr m.trainIdx
  if boundingBox.roi.contains currKpt.pt.toPoint then
    let prevKpt ← vecAtInt kptsPrev m.queryIdx
    if kptDistance norm currKpt prevKpt ≤ filterKptsWithDistHigherThan then
      pure { boundingBox with
        keypoints := boundingBox.keypoints ++ [currKpt]
        kptMatches := boundingBox.kptMatches ++ [m] }
    else
      pure boundingBox
  else
    pure boundingBox

/-- Second loop (lines 169-183): the re-scan that appends the retained
keypoints and correspondences to the region, for the cutoff read at line 167. -/
def retainInliers (norm : ℚ → ℚ → ℚ) (kptsPrev kptsCurr : List KeyPoint)
    (filterKptsWithDistHigherThan : ℚ) (boundingBox : BoundingBox)
    (kptMatches : List DMatch) : Except Fault BoundingBox :=
  kptMatches.foldlM (retainStep norm kptsPrev kptsCurr filterKptsWithDistHigherThan) boundingBox

/-- The function `clusterKptMatchesWithROI`: returns the region with its
keypoint and correspondence collections extended. The mean and standard
deviation of lines 154-162 only feed the log line and are left out. -/
def clusterKptMatchesWithROI (norm : ℚ → ℚ → ℚ) (boundingBox : BoundingBox)
    (kptsPrev kptsCurr : List KeyPoint) (kptMatches : List DMatch) :
    Except Fault BoundingBox := do
  let euclideanDistances ← collectDistances norm boundingBox.roi kptsPrev kptsCurr kptMatches
  let filterKptsWithDistHigherThan ← readCutoff euclideanDistances
  retainInliers norm kptsPrev kptsCurr filterKptsWithDistHigherThan boundingBox kptMatches

/-- Claim-side predicate: the current-frame keypoint of the correspondence
lies inside the rectangle. -/
def inRoi (roi : Rect) (kptsCurr : List KeyPoint) (m : DMatch) : Bool :=
  match vecAtInt kptsCurr m.trainIdx with
  | .ok currKpt => roi.contains currKpt.pt.toPoint
  | .error _ => false

/-- Claim-side predicate: the displacement of the correspondence is at most
the cutoff. -/
def withinCutoff (norm : ℚ → ℚ → ℚ) (kptsPrev kptsCurr : List KeyPoint) (cutoff : ℚ)
    (m : DMatch) : Bool :=
  match vecAtInt kptsCurr m.trainIdx, vecAtInt kptsPrev m.queryIdx with
  | .ok currKpt, .ok prevKpt => decide (kptDistance norm currKpt prevKpt ≤ cutoff)
  | _, _ => false

/-- Current-frame keypoint of a correspondence (the origin when out of range). -/
def currKptOf (kptsCurr : List KeyPoint) (m : DMatch) : KeyPoint :=
  match vecAtInt kptsCurr m.trainIdx with
  | .ok currKpt => currKpt
  | .error _ => { pt := { x := 0, y := 0 } }

/-- Indices of a correspondence are valid for the two keypoint vectors. -/
def InRange (kptsPrev kptsCurr : List KeyPoint) (m : DMatch) : Prop :=
  0 ≤ m.queryIdx ∧ m.queryIdx < kptsPrev.length ∧ 0 ≤ m.trainIdx ∧ m.trainIdx < kptsCurr.length

instance instDecidableInRange (kptsPrev kptsCurr : List KeyPoint) (m : DMatch) :
    Decidable (InRange kptsPrev kptsCurr m) := by
  unfold InRange; infer_instance

/-! ## computeTTCCamera -/

/-- Constant `std::numeric_limits<double>::epsilon()`, two to the power -52. -/
def epsilon : ℚ := 1 / 4503599627370496

/-- Constant `minDist` of line 210. -/
def minDist : ℚ := 100

/-- Body of the inner loop (lines 208-225) for the outer keypoints
`kpOuterCurr`, `kpOuterPrev` and the inner correspondence `it2`. -/
def ratioStep (norm : ℚ → ℚ → ℚ) (kptsPrev kptsCurr : List KeyPoint)
    (kpOuterCurr kpOuterPrev : KeyPoint) (distRatios : List ℚ) (it2 : DMatch) :
    Except Fault (List ℚ) := do
  let kpInnerCurr ← vecAtInt kptsCurr it2.trainIdx
  let kpInnerPrev ← vecAtInt kptsPrev it2.queryIdx
  let distCurr := kptDistance norm kpOuterCurr kpInnerCurr
  let distPrev := kptDistance norm kpOuterPrev kpInnerPrev
  if distPrev > epsilon ∧ distCurr ≥ minDist then
    pure (distRatios ++ [distCurr / distPrev])
  else
    pure distRatios

/-- Body of the outer loop (lines 201-226): the inner loop runs from
`kptMatches.begin() + 1` to `kptMatches.end()`. -/
def outerStep (norm : ℚ → ℚ → ℚ) (kptsPrev kptsCurr : List KeyPoint)
    (kptMatches : List DMatch) (distRatios : List ℚ) (it1 : DMatch) :
    Except Fault (List ℚ) := do
  let kpOuterCurr ← vecAtInt kptsCurr it1.trainIdx
  let kpOuterPrev ← vecAtInt kptsPrev it1.queryIdx
  kptMatches.tail.foldlM (ratioStep norm kptsPrev kptsCurr kpOuterCurr kpOuterPrev) distRatios

/-- Vector `distRatios` after the loops of lines 199-226. The outer loop runs
from `kptMatches.begin()` to `kptMatches.end() - 1`; on an empty vector that
bound lies before `begin()` and the first dereference leaves the vector. -/
def collectDistRatios (norm : ℚ → ℚ → ℚ) (kptsPrev kptsCurr : List KeyPoint)
    (kptMatches : List DMatch) : Except Fault (List ℚ) :=
  match kptMatches with
  | [] => .error .outOfRange
  | _ :: _ => kptMatches.dropLast.foldlM (outerStep norm kptsPrev kptsCurr kptMatches) []

/-- Ratio `distCurr / distPrev` of the pair of correspondences `(a, b)` when
the pair passes the two thresholds of line 220. -/
def pairRatio (norm : ℚ → ℚ → ℚ) (kptsPrev kptsCurr : List KeyPoint) (a b : DMatch) :
    Option ℚ :=
  match vecAtInt kptsCurr a.trainIdx, vecAtInt kptsPrev a.queryIdx,
      vecAtInt kptsCurr b.trainIdx, vecAtInt kptsPrev b.queryIdx with
  | .ok aCurr, .ok aPrev, .ok bCurr, .ok bPrev =>
    if kptDistance norm aPrev bPrev > epsilon ∧ kptDistance norm aCurr bCurr ≥ minDist then
      some (kptDistance norm aCurr bCurr / kptDistance norm aPrev bPrev)
    else none
  | _, _, _, _ => none

/-- Claim-side collection: one ratio for each unordered pair `i < j` of
correspondences that passes the thresholds, written from the words of the
specification. -/
def unorderedPairRatios (norm : ℚ → ℚ → ℚ) (kptsPrev kptsCurr : List KeyPoint) :
    List DMatch → List ℚ
  | [] => []
  | a :: rest =>
    rest.filterMap (pairRatio norm kptsPrev kptsCurr a) ++
      unorderedPairRatios norm kptsPrev kptsCurr rest

/-- Norm used on concrete inputs: for a difference vector with a zero
component it is the Euclidean norm `cv::norm` computes. -/
def axisNorm (dx dy : ℚ) : ℚ := |dx| + |dy|

/-- Lines 235-239: `std::sort`, `medIndex = floor(size / 2.0)` and the median
`medDistRatio` of a non-empty `distRatios`. -/
def medianDistRatio (distRatios : List ℚ) : Except Fault ℚ := do
  let sorted := distRatios.insertionSort (· ≤ ·)
  let medIndex := sorted.length / 2
  if sorted.length % 2 = 0 then
    let lo ← vecAt sorted (medIndex - 1)
    let hi ← vecAt sorted medIndex
    pure ((lo + hi) / 2)
  else
    vecAt sorted medIndex

/-- The function `computeTTCCamera`: returns the value written to `TTC`. -/
def computeTTCCamera (norm : ℚ → ℚ → ℚ) (kptsPrev kptsCurr : List KeyPoint)
    (kptMatches : List DMatch) (frameRate : ℚ) : Except Fault Dbl := do
  let distRatios ← collectDistRatios norm kptsPrev kptsCurr kptMatches
  if distRatios.isEmpty then
    pure Dbl.nan
  else
    let medDistRatio ← medianDistRatio distRatios
    let dT := Dbl.div (.fin 1) (.fin frameRate)
    pure (Dbl.div (Dbl.neg dT) (.fin (1 - medDistRatio)))

/-! ## computeTTCLidar -/

/-- Constant `K` of line 255: the number of points selected per frame. -/
def lidarK : Nat := 13

/-- Constant `P` of line 256: the divisor of the sums. -/
def lidarP : Nat := 5

/-- Comparator `cmpFunc` of line 260. -/
def cmpFunc (lp1 lp2 : LidarPoint) : Bool := decide (lp1.x > lp2.x)

/-- Exchange of the elements at positions `i` and `j`. -/
def swapAt {α : Type} (v : List α) (i j : Nat) : List α :=
  match v[i]?, v[j]? with
  | some a, some b => (v.set i b).set j a
  | _, _ => v

/-- Sift-down of the value at `hole` inside the heap range `[0, len)`; `fuel`
bounds the number of levels. -/
def siftDown {α : Type} (comp : α → α → Bool) (len : Nat) : Nat → List α → Nat → List α
  | 0, v, _ => v
  | fuel + 1, v, hole =>
    let left := 2 * hole + 1
    let right := 2 * hole + 2
    if left < len then
      let child :=
        if right < len then
          match v[right]?, v[left]? with
          | some r, some l => if comp r l then left else right
          | _, _ => left
        else left
      match v[child]?, v[hole]? with
      | some c, some h =>
        if comp c h then v else siftDown comp len fuel (swapAt v hole child) child
      | _, _ => v
    else v

/-- Library function `std::make_heap(begin, end, comp)` on the whole vector. -/
def makeHeap {α : Type} (comp : α → α → Bool) (v : List α) : List α :=
  if v.length < 2 then v
  else
    (List.range ((v.length - 2) / 2 + 1)).reverse.foldl
      (fun w parent => siftDown comp v.length v.length w parent) v

/-- Library function `std::sort_heap(begin, begin + k, comp)`: for `last` from
`k - 1` down to 1, the root is exchanged with position `last` and the new root is
sifted down inside `[0, last)`. The iterator `begin + k` must lie inside the vector. -/
def sortHeap {α : Type} (comp : α → α → Bool) (v : List α) (k : Nat) :
    Except Fault (List α) :=
  if k ≤ v.length then
    .ok ((List.range' 1 (k - 1)).reverse.foldl
      (fun w last => siftDown comp last last (swapAt w 0 last) 0) v)
  else .error .outOfRange

/-- Sum `std::accumulate(begin, begin + k, 0.0, sumOp)` of the forward distances. -/
def accumulateX (v : List LidarPoint) (k : Nat) : Except Fault ℚ :=
  if k ≤ v.length then .ok ((v.take k).foldl (fun sum lp => sum + lp.x) 0)
  else .error .outOfRange

/-- Heap steps of one frame (lines 262-266, and 268-269 for the current frame):
`std::make_heap` on the whole vector, then `std::sort_heap` on its first `K`
elements. Returns the vector as the steps leave it. -/
def heapSteps (lidarPoints : List LidarPoint) : Except Fault (List LidarPoint) :=
  sortHeap cmpFunc (makeHeap cmpFunc lidarPoints) lidarK

/-- Value `prevMeanX` / `currMeanX` of lines 273-274: the sum of the forward
distances of the first `K` elements, divided by `P`. -/
def meanX (lidarPoints : List LidarPoint) : Except Fault ℚ := do
  let sum ← accumulateX lidarPoints lidarK
  pure (sum / lidarP)

/-- The function `computeTTCLidar`: returns the two vectors as the call leaves
them and the value written to `TTC`. -/
def computeTTCLidar (lidarPointsPrev lidarPointsCurr : List LidarPoint) (frameRate : ℚ) :
    Except Fault (List LidarPoint × List LidarPoint × Dbl) := do
  if ¬ (lidarK ≤ lidarPointsPrev.length ∧ lidarK ≤ lidarPointsCurr.length) then
    .error .assertFailed
  else
    let prev ← heapSteps lidarPointsPrev
    let curr ← heapSteps lidarPointsCurr
    let prevMeanX ← meanX prev
    let currMeanX ← meanX curr
    let T := Dbl.div (.fin 1) (.fin frameRate)
    let TTC := Dbl.div (Dbl.mul (.fin currMeanX) T) (.fin (prevMeanX - currMeanX))
    pure (prev, curr, TTC)

/-- Lidar points on the forward axis with the given forward distances. -/
def lidarOnAxis (xs : List ℚ) : List LidarPoint :=
  xs.map fun x => { x := x, y := 0, z := 0, r := 0 }

/-! ## Concrete inputs -/

/-- A region with the given id and rectangle and empty collections. -/
def mkBox (boxID : Int) (roi : Rect) : BoundingBox :=
  { boxID := boxID, roi := roi, lidarPoints := [], keypoints := [], kptMatches := [] }

/-- A keypoint at an integer pixel position. -/
def mkKpt (x y : Int) : KeyPoint := { pt := { x := x, y := y } }

/-! ## Auxiliary definitions of the proofs and concrete inputs -/

/-- Table `[g 0, ..., g (n-1)]`: the shape in which the proofs hold an index vector. -/
def tab {α : Type} (n : Nat) (g : Nat → α) : List α := (List.range n).map g

/-- Vote `cnt[p][c]` (0 outside the matrix). -/
def cell (cnt : List (List Nat)) (p c : Nat) : Nat := (cnt.getD p []).getD c 0

/-- The vote matrix has `rows` rows of `cols` entries each. -/
def IsMatrix (cnt : List (List Nat)) (rows cols : Nat) : Prop :=
  cnt.length = rows ∧ ∀ row ∈ cnt, row.length = cols

/-- Running best index of the loops of lines 337-349 over the first `k` indices:
it starts at 0 and moves to `k` only on a strictly greater value. -/
def firstMax (f : Nat → Nat) : Nat → Nat
  | 0 => 0
  | k + 1 => if f k > f (firstMax f k) then k else firstMax f k

/-- Claim-side predicate: `p` is the smallest index below `n` at which `f` is maximal. -/
def IsFirstMax (f : Nat → Nat) (n p : Nat) : Prop :=
  p < n ∧ (∀ q, q < n → f q ≤ f p) ∧ (∀ q, q < p → f q < f p)

instance instDecidableIsFirstMax (f : Nat → Nat) (n p : Nat) : Decidable (IsFirstMax f n p) := by
  unfold IsFirstMax; infer_instance

/-- Column-wise running best index after `k` rows. -/
def colBest (cnt : List (List Nat)) (k c : Nat) : Nat := firstMax (fun p => cell cnt p c) k

/-- Row-wise running best index after `j` columns. -/
def rowBest (cnt : List (List Nat)) (j p : Nat) : Nat := firstMax (fun c => cell cnt p c) j

/-- Region ids equal their position in the region vector (the assumption the
asserts of lines 364-365 and 379-380 check). -/
def PositionalIds (boundingBoxes : List BoundingBox) : Prop :=
  boundingBoxes.map BoundingBox.boxID = (List.range boundingBoxes.length).map Int.ofNat

instance instDecidablePositionalIds (boundingBoxes : List BoundingBox) :
    Decidable (PositionalIds boundingBoxes) := by
  unfold PositionalIds; infer_instance

/-- Pure form of the filled map. -/
def bestMatchesOf (cnt : List (List Nat)) (bb : List (Int × Int)) (rows cols : Nat) :
    List (Int × Int) :=
  if rows ≤ cols then
    (List.range cols).foldl (fun m c => mapAssign m (colBest cnt rows c : Nat) (c : Nat)) bb
  else
    (List.range rows).foldl (fun m p => mapAssign m (p : Nat) (rowBest cnt cols p : Nat)) bb

/-- Frame with two disjoint regions and four keypoints: three in region 0, one in region 1. -/
def twoRegionFrame : DataFrame :=
  { keypoints := [mkKpt 1 1, mkKpt 2 2, mkKpt 3 3, mkKpt 25 5]
    boundingBoxes := [mkBox 0 ⟨0, 0, 10, 10⟩, mkBox 1 ⟨20, 0, 10, 10⟩] }

/-- Frame with one small region and no keypoints. -/
def oneRegionFrame : DataFrame :=
  { keypoints := []
    boundingBoxes := [mkBox 0 ⟨0, 0, 10, 10⟩] }

/-- Frame with one wide region that holds all four keypoints. -/
def wideRegionFrame : DataFrame :=
  { keypoints := [mkKpt 1 1, mkKpt 2 2, mkKpt 3 3, mkKpt 25 5]
    boundingBoxes := [mkBox 0 ⟨0, 0, 100, 100⟩] }

/-- Four correspondences pairing keypoint `i` with keypoint `i`. -/
def fourMatches : List DMatch := [⟨0, 0⟩, ⟨1, 1⟩, ⟨2, 2⟩, ⟨3, 3⟩]

/-- Frame with three disjoint regions and one keypoint in each. -/
def threeRegionFrame : DataFrame :=
  { keypoints := [mkKpt 5 5, mkKpt 25 5, mkKpt 45 5]
    boundingBoxes := [mkBox 0 ⟨0, 0, 10, 10⟩, mkBox 1 ⟨20, 0, 10, 10⟩, mkBox 2 ⟨40, 0, 10, 10⟩] }

/-- Twelve correspondences between two copies of `threeRegionFrame` with the votes
`[[2, 1, 1], [2, 3, 0], [0, 3, 0]]`: columns 0 and 1 have tied maxima. -/
def tiedColumnMatches : List DMatch :=
  [⟨0, 0⟩, ⟨0, 0⟩, ⟨0, 1⟩, ⟨0, 2⟩, ⟨1, 0⟩, ⟨1, 0⟩, ⟨1, 1⟩, ⟨1, 1⟩, ⟨1, 1⟩,
   ⟨2, 1⟩, ⟨2, 1⟩, ⟨2, 1⟩]

/-- Four correspondences from `threeRegionFrame` to `twoRegionFrame` with the votes
`[[1, 1], [0, 2], [0, 0]]`: row 0 has a tied maximum, row 2 no vote. -/
def tiedRowMatches : List DMatch := [⟨0, 0⟩, ⟨0, 3⟩, ⟨1, 3⟩, ⟨1, 3⟩]

/-- Claim-side predicate: the pixel lies inside the rectangle, whose left and top
edges belong to it and whose right and bottom edges do not. -/
def InsideRect (rect : Rect) (pt : Point) : Prop :=
  rect.x ≤ pt.x ∧ pt.x < rect.x + rect.width ∧ rect.y ≤ pt.y ∧ pt.y < rect.y + rect.height

/-- Claim-side predicate: the pixel lies inside the shrunk rectangle of the region at
position `r` and inside the shrunk rectangle of no other region. -/
def EnclosedOnlyBy (boundingBoxes : List BoundingBox) (shrinkFactor : ℚ) (r : Nat)
    (pt : Point) : Prop :=
  (∃ b, boundingBoxes[r]? = some b ∧ InsideRect (shrinkBox b.roi shrinkFactor) pt) ∧
    ∀ i b, i ≠ r → boundingBoxes[i]? = some b →
      ¬ InsideRect (shrinkBox b.roi shrinkFactor) pt

/-- The `float` value `0.22f`. -/
def shrink22 : ℚ := f32 (22 / 100)

/-- Two overlapping regions of 150 × 100 pixels, the second 100 pixels to the right. -/
def overlappingBoxes : List BoundingBox :=
  [mkBox 0 ⟨0, 0, 150, 100⟩, mkBox 1 ⟨100, 0, 150, 100⟩]

/-- Projection used on concrete inputs: the pixel `(x, y)` of the point `(x, y, z)`. -/
def planarProjection (p : LidarPoint) : Point := { x := cvRound p.x, y := cvRound p.y }

/-- Lidar point with the given `x` and `y`. -/
def lidarAt (x y : ℚ) : LidarPoint := { x := x, y := y, z := 0, r := 0 }

/-- Six points: inside the first shrunk rectangle only, inside both, on the right
edge of the first shrunk rectangle (inside the second only), inside the first
rectangle but left of its shrunk one, inside the second shrunk rectangle only, and
above both shrunk rectangles. -/
def sixLidarPoints : List LidarPoint :=
  [lidarAt 50 50, lidarAt 120 50, lidarAt 132 50, lidarAt 5 50, lidarAt 200 50, lidarAt 140 5]

/-- Pure form of the body of the second loop of `clusterKptMatchesWithROI`. -/
def retainPure (norm : ℚ → ℚ → ℚ) (kptsPrev kptsCurr : List KeyPoint) (cutoff : ℚ)
    (boundingBox : BoundingBox) (m : DMatch) : BoundingBox :=
  if inRoi boundingBox.roi kptsCurr m && withinCutoff norm kptsPrev kptsCurr cutoff m then
    { boundingBox with
      keypoints := boundingBox.keypoints ++ [currKptOf kptsCurr m]
      kptMatches := boundingBox.kptMatches ++ [m] }
  else boundingBox

/-- Keypoints `(x, 0)` for a list of abscissas. -/
def kptsOnAxis (xs : List Int) : List KeyPoint := xs.map fun x => mkKpt x 0

/-- Correspondences `i ↔ i` for `i < n`. -/
def identityMatches (n : Nat) : List DMatch :=
  (List.range n).map fun i => { queryIdx := i, trainIdx := i }

/-- Region with rectangle `[0, 100) × [0, 100)` and empty collections. -/
def squareBox : BoundingBox := mkBox 0 ⟨0, 0, 100, 100⟩

/-- Ten previous-frame keypoints at the origin. -/
def tenPrevKpts : List KeyPoint := kptsOnAxis [0, 0, 0, 0, 0, 0, 0, 0, 0, 0]

/-- Ten current-frame keypoints inside `squareBox`, with displacements 1, ..., 10. -/
def tenCurrKpts : List KeyPoint := kptsOnAxis [1, 2, 3, 4, 5, 6, 7, 8, 9, 10]

/-- Two current-frame keypoints outside `squareBox`. -/
def outsideKpts : List KeyPoint := kptsOnAxis [200, 300]

/-- Four previous-frame keypoints on the horizontal axis. -/
def fourPrevKpts : List KeyPoint := kptsOnAxis [0, 100, 300, 700]

/-- Four current-frame keypoints on the horizontal axis. -/
def fourCurrKpts : List KeyPoint := kptsOnAxis [0, 200, 500, 1500]

/-- Forward distances of the first `K` points of a vector. -/
def selectedXs (lidarPoints : List LidarPoint) : List ℚ :=
  (lidarPoints.take lidarK).map fun lp => lp.x

/-- Forward distances of fourteen points that already form a min-heap; the
thirteenth place of the heap order is not among the thirteen smallest. -/
def skewedHeapXs : List ℚ := [1, 100, 2, 101, 102, 50, 3, 103, 104, 105, 106, 51, 52, 4]

/-- Thirteen forward distances in ascending order. -/
def ascendingXs : List ℚ := [1, 2, 3, 4, 5, 6, 7, 8, 9, 10, 11, 12, 13]

/-- Claim-side predicate: the previous-frame keypoint of the correspondence lies
inside the rectangle of previous region `p` and its current-frame keypoint inside
the rectangle of current region `c`. -/
def votesFor (prevFrame currFrame : DataFrame) (p c : Nat) (m : DMatch) : Bool :=
  match vecAtInt prevFrame.keypoints m.queryIdx, vecAtInt currFrame.keypoints m.trainIdx,
      prevFrame.boundingBoxes[p]?, currFrame.boundingBoxes[c]? with
  | .ok prevKpt, .ok currKpt, some pb, some cb =>
    pb.roi.contains prevKpt.pt.toPoint && cb.roi.contains currKpt.pt.toPoint
  | _, _, _, _ => false

/-- Frame with two overlapping regions and three keypoints: one in both regions,
one in region 1 only, one in no region. -/
def overlapFrame : DataFrame :=
  { keypoints := [mkKpt 7 7, mkKpt 12 12, mkKpt 50 50]
    boundingBoxes := [mkBox 0 ⟨0, 0, 10, 10⟩, mkBox 1 ⟨5, 5, 10, 10⟩] }

/-- The four correspondences of `identityMatches 4` in another order. -/
def permutedMatches : List DMatch := [⟨1, 1⟩, ⟨0, 0⟩, ⟨3, 3⟩, ⟨2, 2⟩]

/-- Frame without regions and without keypoints. -/
def noRegionFrame : DataFrame := { keypoints := [], boundingBoxes := [] }

/-! ## Theorems -/

/-! ### Vector access and index tables -/

theorem vecAt_of_getElem? {α : Type} {v : List α} {i : Nat} {a : α} (h : v[i]? = some a) :
    vecAt v i = .ok a := by
  simp [vecAt, h]

theorem vecAt_eq_ok {α : Type} {v : List α} {i : Nat} {a : α} (h : vecAt v i = .ok a) :
    v[i]? = some a := by
  unfold vecAt at h
  split at h
  · rename_i b hb; cases h; exact hb
  · cases h

theorem vecAtInt_ok_of_inRange {α : Type} {v : List α} {i : Int} (h0 : 0 ≤ i)
    (h1 : i < v.length) : ∃ a, vecAtInt v i = .ok a := by
  have hlt : i.toNat < v.length := by omega
  refine ⟨v.get ⟨i.toNat, hlt⟩, ?_⟩
  unfold vecAtInt
  rw [if_pos h0]
  exact vecAt_of_getElem? (List.getElem?_eq_getElem hlt)

theorem tab_length {α : Type} (n : Nat) (g : Nat → α) : (tab n g).length = n := by
  simp [tab]

theorem tab_getElem? {α : Type} {n i : Nat} (g : Nat → α) (h : i < n) :
    (tab n g)[i]? = some (g i) := by
  simp [tab, List.getElem?_range h]

theorem vecAt_tab {α : Type} {n i : Nat} (g : Nat → α) (h : i < n) :
    vecAt (tab n g) i = .ok (g i) :=
  vecAt_of_getElem? (tab_getElem? g h)

theorem tab_congr {α : Type} {n : Nat} {g h : Nat → α} (e : ∀ i, i < n → g i = h i) :
    tab n g = tab n h := by
  unfold tab
  apply List.map_congr_left
  intro i hi
  exact e i (List.mem_range.mp hi)

theorem tab_set {α : Type} {n i : Nat} (g : Nat → α) (a : α) :
    (tab n g).set i a = tab n (Function.update g i a) := by
  apply List.ext_getElem?
  intro j
  by_cases hj : j < n
  · rw [tab_getElem? _ hj, List.getElem?_set]
    by_cases hij : i = j
    · subst hij; simp [tab_length, hj]
    · simp [hij, tab_getElem? g hj, Function.update, Ne.symm hij]
  · have h1 : (tab n (Function.update g i a)).length ≤ j := by simp [tab_length]; omega
    have h2 : ((tab n g).set i a).length ≤ j := by simp [tab_length]; omega
    rw [List.getElem?_eq_none h1, List.getElem?_eq_none h2]

theorem vecSet_tab {α : Type} {n i : Nat} (g : Nat → α) (a : α) (h : i < n) :
    vecSet (tab n g) i a = .ok (tab n (Function.update g i a)) := by
  simp [vecSet, tab_length, h, tab_set]

theorem replicate_eq_tab {α : Type} (n : Nat) (a : α) : List.replicate n a = tab n (fun _ => a) := by
  apply List.ext_getElem?
  intro j
  by_cases hj : j < n
  · rw [tab_getElem? _ hj]; simp [List.getElem?_replicate, hj]
  · have h1 : (tab n (fun _ => a)).length ≤ j := by simp [tab_length]; omega
    have h2 : (List.replicate n a).length ≤ j := by simp; omega
    rw [List.getElem?_eq_none h1, List.getElem?_eq_none h2]

theorem vecAt_row {cnt : List (List Nat)} {rows cols p : Nat} (hm : IsMatrix cnt rows cols)
    (hp : p < rows) : vecAt cnt p = .ok (cnt.getD p []) ∧ (cnt.getD p []).length = cols := by
  have hlt : p < cnt.length := by rw [hm.1]; exact hp
  have h1 : cnt[p]? = some cnt[p] := List.getElem?_eq_getElem hlt
  have h2 : cnt.getD p [] = cnt[p] := by simp [List.getD, h1]
  refine ⟨?_, ?_⟩
  · rw [h2]; exact vecAt_of_getElem? h1
  · rw [h2]; exact hm.2 _ (List.getElem_mem hlt)

theorem vecAt_cell {cnt : List (List Nat)} {rows cols p c : Nat} (hm : IsMatrix cnt rows cols)
    (hp : p < rows) (hc : c < cols) : vecAt (cnt.getD p []) c = .ok (cell cnt p c) := by
  have hlen := (vecAt_row hm hp).2
  have hlt : c < (cnt.getD p []).length := by rw [hlen]; exact hc
  have h1 : (cnt.getD p [])[c]? = some (cnt.getD p [])[c] := List.getElem?_eq_getElem hlt
  apply vecAt_of_getElem?
  unfold cell
  rw [List.getD_eq_getElem?_getD (cnt.getD p []) c 0, h1]
  rfl

/-! ### First maximum -/

theorem firstMax_lt (f : Nat → Nat) (k n : Nat) (hk : k ≤ n) (hn : 0 < n) : firstMax f k < n := by
  induction k with
  | zero => simpa [firstMax] using hn
  | succ k ih =>
    unfold firstMax
    split
    · omega
    · exact ih (by omega)

theorem firstMax_isFirstMax (f : Nat → Nat) (n : Nat) (hn : 0 < n) :
    IsFirstMax f n (firstMax f n) := by
  induction n with
  | zero => omega
  | succ k ih =>
    by_cases hk : k = 0
    · subst hk
      refine ⟨by simp [firstMax], ?_, ?_⟩
      · intro q hq
        have : q = 0 := by omega
        subst this; simp [firstMax]
      · intro q hq
        simp [firstMax] at hq
    · obtain ⟨h1, h2, h3⟩ := ih (by omega)
      unfold firstMax
      split
      · rename_i hgt
        refine ⟨by omega, ?_, ?_⟩
        · intro q hq
          by_cases hqk : q = k
          · subst hqk; exact le_refl _
          · exact le_trans (h2 q (by omega)) (le_of_lt hgt)
        · intro q hq
          exact lt_of_le_of_lt (h2 q hq) hgt
      · rename_i hgt
        refine ⟨by omega, ?_, ?_⟩
        · intro q hq
          by_cases hqk : q = k
          · subst hqk; omega
          · exact h2 q (by omega)
        · exact h3

theorem isFirstMax_unique {f : Nat → Nat} {n p q : Nat} (hp : IsFirstMax f n p)
    (hq : IsFirstMax f n q) : p = q := by
  obtain ⟨p1, p2, p3⟩ := hp
  obtain ⟨q1, q2, q3⟩ := hq
  rcases Nat.lt_trichotomy p q with h | h | h
  · have := q3 p h; have := p2 q q1; omega
  · exact h
  · have := p3 q h; have := q2 p p1; omega

/-! ### The index loops of matchBoundingBoxes (lines 334-349) -/

theorem foldlM_range_succ {σ : Type} (f : σ → Nat → Except Fault σ) (s : σ) (n : Nat) :
    (List.range (n + 1)).foldlM f s = (List.range n).foldlM f s >>= fun t => f t n := by
  rw [List.range_succ, List.foldlM_append]
  simp

theorem foldlM_eq_foldl {σ β : Type} (f : σ → β → Except Fault σ) (g : σ → β → σ)
    (l : List β) (h : ∀ s x, x ∈ l → f s x = .ok (g s x)) (s : σ) :
    l.foldlM f s = .ok (l.foldl g s) := by
  induction l generalizing s with
  | nil => rfl
  | cons a t ih =>
    rw [List.foldlM_cons, h s a (List.mem_cons_self _ _)]
    exact ih (fun s x hx => h s x (List.mem_cons_of_mem _ hx)) (g s a)

theorem argmaxStep_tab {cnt : List (List Nat)} {rows cols p c : Nat}
    (hm : IsMatrix cnt rows cols) (hp : p < rows) (hc : c < cols) (g h : Nat → Nat)
    (hg : g c < rows) (hh : h p < cols) :
    argmaxStep cnt p (tab cols g, tab rows h) c =
      .ok (tab cols (Function.update g c
              (if cell cnt p c > cell cnt (g c) c then p else g c)),
           tab rows (Function.update h p
              (if cell cnt p c > cell cnt p (h p) then c else h p))) := by
  unfold argmaxStep
  simp only [(vecAt_row hm hp).1, vecAt_cell hm hp hc, vecAt_tab g hc, (vecAt_row hm hg).1,
    vecAt_cell hm hg hc, vecSet_tab g _ hc, vecAt_tab h hp, vecAt_cell hm hp hh,
    vecSet_tab h _ hp, bind, Except.bind, pure, Except.pure]

theorem argmax_inner {cnt : List (List Nat)} {rows cols k : Nat}
    (hm : IsMatrix cnt rows cols) (hk : k < rows) (j : Nat) (hj : j ≤ cols) :
    (List.range j).foldlM (argmaxStep cnt k)
        (tab cols (fun c => colBest cnt k c),
         tab rows (fun p => if p < k then rowBest cnt cols p else 0)) =
      .ok (tab cols (fun c => if c < j then colBest cnt (k + 1) c else colBest cnt k c),
           tab rows (fun p => if p < k then rowBest cnt cols p
                              else if p = k then rowBest cnt j p else 0)) := by
  induction j with
  | zero =>
    have e1 : tab cols (fun c => colBest cnt k c) =
        tab cols (fun c => if c < 0 then colBest cnt (k + 1) c else colBest cnt k c) := by
      apply tab_congr; intro i _; simp
    have e2 : tab rows (fun p => if p < k then rowBest cnt cols p else 0) =
        tab rows (fun p => if p < k then rowBest cnt cols p
                              else if p = k then rowBest cnt 0 p else 0) := by
      apply tab_congr; intro i _
      by_cases h1 : i < k
      · simp [h1]
      · by_cases h2 : i = k
        · simp [h2, rowBest, firstMax]
        · simp [h1, h2]
    simp only [List.range_zero, List.foldlM_nil, pure, Except.pure]
    exact congrArg Except.ok (congrArg₂ Prod.mk e1 e2)
  | succ j ih =>
    rw [foldlM_range_succ, ih (by omega)]
    have hg : (fun c => if c < j then colBest cnt (k + 1) c else colBest cnt k c) j < rows := by
      simp only [lt_irrefl, if_false]
      exact firstMax_lt _ k rows (by omega) (by omega)
    have hh : (fun p => if p < k then rowBest cnt cols p
                else if p = k then rowBest cnt j p else 0) k < cols := by
      simp only [lt_irrefl, if_false, if_true]
      exact firstMax_lt _ j cols (by omega) (by omega)
    have hstep := argmaxStep_tab (p := k) (c := j) hm hk (by omega)
      (fun c => if c < j then colBest cnt (k + 1) c else colBest cnt k c)
      (fun p => if p < k then rowBest cnt cols p else if p = k then rowBest cnt j p else 0)
      hg hh
    have e1 : tab cols (Function.update
          (fun c => if c < j then colBest cnt (k + 1) c else colBest cnt k c) j
          (if cell cnt k j >
              cell cnt ((fun c => if c < j then colBest cnt (k + 1) c else colBest cnt k c) j) j
            then k
            else (fun c => if c < j then colBest cnt (k + 1) c else colBest cnt k c) j)) =
        tab cols (fun c => if c < j + 1 then colBest cnt (k + 1) c else colBest cnt k c) := by
      apply tab_congr; intro i _
      by_cases h1 : i = j
      · subst h1
        simp [Function.update, colBest, firstMax]
      · by_cases h2 : i < j
        · have h3 : i < j + 1 := by omega
          simp [Function.update, h1, h2, h3]
        · have h3 : ¬ i < j + 1 := by omega
          simp [Function.update, h1, h2, h3]
    have e2 : tab rows (Function.update
          (fun p => if p < k then rowBest cnt cols p else if p = k then rowBest cnt j p else 0) k
          (if cell cnt k j > cell cnt k
                ((fun p => if p < k then rowBest cnt cols p
                    else if p = k then rowBest cnt j p else 0) k)
            then j
            else (fun p => if p < k then rowBest cnt cols p
                    else if p = k then rowBest cnt j p else 0) k)) =
        tab rows (fun p => if p < k then rowBest cnt cols p
                              else if p = k then rowBest cnt (j + 1) p else 0) := by
      apply tab_congr; intro i _
      by_cases h1 : i = k
      · subst h1
        simp [Function.update, rowBest, firstMax]
      · simp [Function.update, h1]
    show argmaxStep cnt k _ j = _
    rw [hstep]
    exact congrArg Except.ok (congrArg₂ Prod.mk e1 e2)

theorem argmax_outer {cnt : List (List Nat)} {rows cols : Nat}
    (hm : IsMatrix cnt rows cols) (k : Nat) (hk : k ≤ rows) :
    (List.range k).foldlM
        (fun s prev_ind => (List.range cols).foldlM (argmaxStep cnt prev_ind) s)
        (List.replicate cols 0, List.replicate rows 0) =
      .ok (tab cols (fun c => colBest cnt k c),
           tab rows (fun p => if p < k then rowBest cnt cols p else 0)) := by
  induction k with
  | zero =>
    have e1 : tab cols (fun _ => 0) = tab cols (fun c => colBest cnt 0 c) := by
      apply tab_congr; intro i _; simp [colBest, firstMax]
    have e2 : tab rows (fun _ => 0) =
        tab rows (fun p => if p < 0 then rowBest cnt cols p else 0) := by
      apply tab_congr; intro i _; simp
    simp only [List.range_zero, List.foldlM_nil, pure, Except.pure, replicate_eq_tab]
    exact congrArg Except.ok (congrArg₂ Prod.mk e1 e2)
  | succ k ih =>
    rw [foldlM_range_succ, ih (by omega)]
    have e1 : tab cols (fun c => if c < cols then colBest cnt (k + 1) c else colBest cnt k c) =
        tab cols (fun c => colBest cnt (k + 1) c) := by
      apply tab_congr; intro i hi; simp [hi]
    have e2 : tab rows (fun p => if p < k then rowBest cnt cols p
                              else if p = k then rowBest cnt cols p else 0) =
        tab rows (fun p => if p < k + 1 then rowBest cnt cols p else 0) := by
      apply tab_congr; intro i _
      by_cases h1 : i < k
      · have : i < k + 1 := by omega
        simp [h1, this]
      · by_cases h2 : i = k
        · simp [h2]
        · have : ¬ i < k + 1 := by omega
          simp [h1, h2, this]
    show (List.range cols).foldlM (argmaxStep cnt k) _ = _
    rw [argmax_inner hm (by omega) cols (le_refl _)]
    exact congrArg Except.ok (congrArg₂ Prod.mk e1 e2)

theorem argmaxIndices_eq {cnt : List (List Nat)} {rows cols : Nat}
    (hm : IsMatrix cnt rows cols) :
    argmaxIndices cnt rows cols =
      .ok (tab cols (fun c => colBest cnt rows c), tab rows (fun p => rowBest cnt cols p)) := by
  unfold argmaxIndices
  rw [argmax_outer hm rows (le_refl _)]
  have e2 : tab rows (fun p => if p < rows then rowBest cnt cols p else 0) =
      tab rows (fun p => rowBest cnt cols p) := by
    apply tab_congr; intro i hi; simp [hi]
  rw [e2]

/-! ### The voting loop and the fill of matchBoundingBoxes -/

theorem bind_eq_ok {α β : Type} {x : Except Fault α} {f : α → Except Fault β} {b : β}
    (h : x >>= f = .ok b) : ∃ a, x = .ok a ∧ f a = .ok b := by
  cases x with
  | error e => cases h
  | ok a => exact ⟨a, rfl, h⟩

theorem vecSet_eq_ok {α : Type} {v w : List α} {i : Nat} {a : α} (h : vecSet v i a = .ok w) :
    i < v.length ∧ w = v.set i a := by
  unfold vecSet at h
  split at h
  · rename_i hlt; cases h; exact ⟨hlt, rfl⟩
  · cases h

theorem foldlM_invariant {σ β : Type} (P : σ → Prop) (f : σ → β → Except Fault σ)
    (l : List β) (hstep : ∀ s x t, P s → f s x = .ok t → P t) :
    ∀ s t, P s → l.foldlM f s = .ok t → P t := by
  induction l with
  | nil =>
    intro s t hs h
    simp only [List.foldlM_nil, pure, Except.pure] at h
    cases h; exact hs
  | cons a r ih =>
    intro s t hs h
    rw [List.foldlM_cons] at h
    obtain ⟨u, h1, h2⟩ := bind_eq_ok h
    exact ih u t (hstep s a u hs h1) h2

theorem incrementVote_isMatrix {cnt out : List (List Nat)} {rows cols p c : Nat}
    (hm : IsMatrix cnt rows cols) (h : incrementVote cnt p c = .ok out) :
    IsMatrix out rows cols := by
  unfold incrementVote at h
  obtain ⟨row, h1, h⟩ := bind_eq_ok h
  obtain ⟨v, _, h⟩ := bind_eq_ok h
  obtain ⟨row2, h3, h⟩ := bind_eq_ok h
  obtain ⟨_, e3⟩ := vecSet_eq_ok h3
  obtain ⟨_, e4⟩ := vecSet_eq_ok h
  have hrow : row ∈ cnt := List.getElem?_mem (vecAt_eq_ok h1)
  subst e3 e4
  refine ⟨by simpa using hm.1, ?_⟩
  intro r hr
  rcases List.mem_or_eq_of_mem_set hr with h5 | h5
  · exact hm.2 r h5
  · subst h5; simpa using hm.2 row hrow

theorem voteForMatch_isMatrix {prevFrame currFrame : DataFrame} {cnt out : List (List Nat)}
    {rows cols : Nat} {m : DMatch} (hm : IsMatrix cnt rows cols)
    (h : voteForMatch prevFrame currFrame cnt m = .ok out) : IsMatrix out rows cols := by
  unfold voteForMatch at h
  obtain ⟨prevKpt, _, h⟩ := bind_eq_ok h
  obtain ⟨currKpt, _, h⟩ := bind_eq_ok h
  refine foldlM_invariant (fun s => IsMatrix s rows cols) _ _ ?_ cnt out hm h
  intro s x t hs hx
  refine foldlM_invariant (fun s => IsMatrix s rows cols) _ _ ?_ s t hs hx
  intro s2 y t2 hs2 hy
  exact incrementVote_isMatrix hs2 hy

theorem countVotes_isMatrix {kptMatches : List DMatch} {prevFrame currFrame : DataFrame}
    {cnt : List (List Nat)} (h : countVotes kptMatches prevFrame currFrame = .ok cnt) :
    IsMatrix cnt prevFrame.boundingBoxes.length currFrame.boundingBoxes.length := by
  unfold countVotes at h
  refine foldlM_invariant
    (fun s => IsMatrix s prevFrame.boundingBoxes.length currFrame.boundingBoxes.length)
    _ _ ?_ _ cnt ?_ h
  · intro s x t hs hx
    exact voteForMatch_isMatrix hs hx
  · refine ⟨by simp, ?_⟩
    intro row hrow
    rw [List.eq_of_mem_replicate hrow]
    simp

theorem vecAt_positional {boundingBoxes : List BoundingBox} (hid : PositionalIds boundingBoxes)
    {i : Nat} (hi : i < boundingBoxes.length) :
    ∃ b, vecAt boundingBoxes i = .ok b ∧ b.boxID = (i : Int) := by
  refine ⟨boundingBoxes[i], vecAt_of_getElem? (List.getElem?_eq_getElem hi), ?_⟩
  have h1 : (boundingBoxes.map BoundingBox.boxID)[i]? = some (boundingBoxes[i].boxID) := by
    simp [List.getElem?_eq_getElem hi]
  rw [hid] at h1
  simp [List.getElem?_range hi] at h1
  exact h1.symm

theorem fillFromCurr_eq {prevFrame currFrame : DataFrame}
    (hprev : PositionalIds prevFrame.boundingBoxes)
    (hcurr : PositionalIds currFrame.boundingBoxes) (g : Nat → Nat)
    (bb : List (Int × Int)) {c : Nat} (hc : c < currFrame.boundingBoxes.length)
    (hg : g c < prevFrame.boundingBoxes.length) :
    fillFromCurr prevFrame currFrame (tab currFrame.boundingBoxes.length g) bb c =
      .ok (mapAssign bb (g c) c) := by
  obtain ⟨pb, hpb, hpid⟩ := vecAt_positional hprev hg
  obtain ⟨cb, hcb, hcid⟩ := vecAt_positional hcurr hc
  unfold fillFromCurr
  simp [vecAt_tab g hc, hpb, hcb, hpid, hcid, bind, Except.bind, pure, Except.pure]

theorem fillFromPrev_eq {prevFrame currFrame : DataFrame}
    (hprev : PositionalIds prevFrame.boundingBoxes)
    (hcurr : PositionalIds currFrame.boundingBoxes) (h : Nat → Nat)
    (bb : List (Int × Int)) {p : Nat} (hp : p < prevFrame.boundingBoxes.length)
    (hh : h p < currFrame.boundingBoxes.length) :
    fillFromPrev prevFrame currFrame (tab prevFrame.boundingBoxes.length h) bb p =
      .ok (mapAssign bb p (h p)) := by
  obtain ⟨pb, hpb, hpid⟩ := vecAt_positional hprev hp
  obtain ⟨cb, hcb, hcid⟩ := vecAt_positional hcurr hh
  unfold fillFromPrev
  simp [vecAt_tab h hp, hpb, hcb, hpid, hcid, bind, Except.bind, pure, Except.pure]

theorem selectBestMatches_eq {cnt : List (List Nat)} {prevFrame currFrame : DataFrame}
    (hm : IsMatrix cnt prevFrame.boundingBoxes.length currFrame.boundingBoxes.length)
    (hprev : PositionalIds prevFrame.boundingBoxes)
    (hcurr : PositionalIds currFrame.boundingBoxes)
    (h0 : prevFrame.boundingBoxes.length = 0 ↔ currFrame.boundingBoxes.length = 0)
    (bb : List (Int × Int)) :
    selectBestMatches cnt bb prevFrame currFrame =
      .ok (bestMatchesOf cnt bb prevFrame.boundingBoxes.length
        currFrame.boundingBoxes.length) := by
  unfold selectBestMatches bestMatchesOf
  simp only [argmaxIndices_eq hm, bind, Except.bind]
  split
  · apply foldlM_eq_foldl
    intro s c hc
    have hc2 := List.mem_range.mp hc
    exact fillFromCurr_eq hprev hcurr _ s hc2 (firstMax_lt _ _ _ (le_refl _) (by omega))
  · apply foldlM_eq_foldl
    intro s p hp
    have hp2 := List.mem_range.mp hp
    exact fillFromPrev_eq hprev hcurr _ s hp2 (firstMax_lt _ _ _ (le_refl _) (by omega))

theorem matchBoundingBoxes_eq {kptMatches : List DMatch} {prevFrame currFrame : DataFrame}
    {cnt : List (List Nat)}
    (hv : countVotes kptMatches prevFrame currFrame = .ok cnt)
    (hprev : PositionalIds prevFrame.boundingBoxes)
    (hcurr : PositionalIds currFrame.boundingBoxes)
    (h0 : prevFrame.boundingBoxes.length = 0 ↔ currFrame.boundingBoxes.length = 0)
    (bb : List (Int × Int)) :
    matchBoundingBoxes kptMatches bb prevFrame currFrame =
      .ok (bestMatchesOf cnt bb prevFrame.boundingBoxes.length
        currFrame.boundingBoxes.length) := by
  unfold matchBoundingBoxes
  rw [hv]
  exact selectBestMatches_eq (countVotes_isMatrix hv) hprev hcurr h0 bb

/-! ### The map and its fills -/

theorem mem_mapAssign {m : List (Int × Int)} {k v : Int} {e : Int × Int}
    (h : e ∈ mapAssign m k v) : e = (k, v) ∨ e ∈ m := by
  induction m with
  | nil => simp [mapAssign] at h; exact Or.inl h
  | cons a t ih =>
    obtain ⟨k0, v0⟩ := a
    unfold mapAssign at h
    split at h
    · rcases List.mem_cons.mp h with h1 | h1
      · exact Or.inl h1
      · exact Or.inr h1
    · split at h
      · rcases List.mem_cons.mp h with h1 | h1
        · exact Or.inl h1
        · exact Or.inr (List.mem_cons_of_mem _ h1)
      · rcases List.mem_cons.mp h with h1 | h1
        · exact Or.inr (h1 ▸ List.mem_cons_self _ _)
        · rcases ih h1 with h2 | h2
          · exact Or.inl h2
          · exact Or.inr (List.mem_cons_of_mem _ h2)

theorem mapFind_mapAssign (m : List (Int × Int)) (k v j : Int) :
    mapFind (mapAssign m k v) j = if j = k then some v else mapFind m j := by
  induction m with
  | nil => simp [mapAssign, mapFind]
  | cons a t ih =>
    obtain ⟨k0, v0⟩ := a
    unfold mapAssign
    split
    · simp [mapFind]
    · split
      · rename_i h1 h2
        subst h2
        simp only [mapFind]
        split <;> simp [*]
      · rename_i h1 h2
        simp only [mapFind, ih]
        by_cases h3 : j = k0
        · have : j ≠ k := fun e => h2 (e ▸ h3)
          subst h3
          simp only [if_true]
          rw [if_neg this]
        · simp [h3]

theorem mapAssign_append (m : List (Int × Int)) (k v : Int) (h : ∀ e ∈ m, e.1 < k) :
    mapAssign m k v = m ++ [(k, v)] := by
  induction m with
  | nil => rfl
  | cons a t ih =>
    obtain ⟨k0, v0⟩ := a
    have h1 : k0 < k := h (k0, v0) (List.mem_cons_self _ _)
    unfold mapAssign
    rw [if_neg (by omega), if_neg (by omega), ih (fun e he => h e (List.mem_cons_of_mem _ he))]
    rfl

theorem foldl_range_succ {σ : Type} (f : σ → Nat → σ) (s : σ) (n : Nat) :
    (List.range (n + 1)).foldl f s = f ((List.range n).foldl f s) n := by
  rw [List.range_succ, List.foldl_append]
  rfl

/-- Filling by increasing keys lists the keys in order. -/
theorem foldl_assign_keys (v : Nat → Nat) (n : Nat) :
    (List.range n).foldl (fun m p => mapAssign m (p : Nat) (v p : Nat)) [] =
      (List.range n).map (fun (p : Nat) => ((p : Int), (v p : Int))) := by
  induction n with
  | zero => rfl
  | succ n ih =>
    rw [foldl_range_succ, ih, mapAssign_append, List.range_succ, List.map_append]
    · rfl
    · intro e he
      obtain ⟨p, hp, rfl⟩ := List.mem_map.mp he
      have := List.mem_range.mp hp
      show (p : Int) < (n : Int)
      omega

theorem foldl_assign_values_mem (g : Nat → Nat) (n : Nat) (e : Int × Int)
    (he : e ∈ (List.range n).foldl (fun m c => mapAssign m (g c : Nat) (c : Nat)) []) :
    ∃ c, c < n ∧ e = ((g c : Int), (c : Int)) := by
  induction n with
  | zero => simp at he
  | succ n ih =>
    rw [foldl_range_succ] at he
    rcases mem_mapAssign he with h | h
    · exact ⟨n, by omega, h⟩
    · obtain ⟨c, hc, hce⟩ := ih h
      exact ⟨c, by omega, hce⟩

theorem foldl_assign_zero (n : Nat) :
    (List.range (n + 1)).foldl (fun m c => mapAssign m ((0 : Nat) : Int) (c : Nat)) [] =
      [((0 : Int), (n : Int))] := by
  induction n with
  | zero => rfl
  | succ n ih =>
    rw [foldl_range_succ, ih]
    simp [mapAssign]

theorem firstMax_congr {f g : Nat → Nat} (n k : Nat) (hk : k ≤ n)
    (h : ∀ i, i < n → f i = g i) : firstMax f k = firstMax g k := by
  induction k with
  | zero => rfl
  | succ k ih =>
    have e := ih (by omega)
    have hlt : firstMax g k < n := firstMax_lt g k n (by omega) (by omega)
    simp only [firstMax, e, h k (by omega), h _ hlt]

theorem firstMax_zero (n : Nat) : firstMax (fun _ => 0) n = 0 := by
  induction n with
  | zero => rfl
  | succ n ih => simp [firstMax, ih]

theorem cell_replicate (rows cols p c : Nat) :
    cell (List.replicate rows (List.replicate cols 0)) p c = 0 := by
  unfold cell
  rw [List.getD_eq_getElem?_getD, List.getD_eq_getElem?_getD]
  by_cases hp : p < rows
  · by_cases hc : c < cols
    · simp [List.getElem?_replicate, hp, hc]
    · simp [List.getElem?_replicate, hp, hc]
  · simp [List.getElem?_replicate, hp]

theorem mapFind_keys (v : Nat → Nat) (n p : Nat) (hp : p < n) :
    mapFind ((List.range n).map (fun (q : Nat) => ((q : Int), (v q : Int)))) (p : Int) =
      some (v p : Int) := by
  induction n with
  | zero => omega
  | succ n ih =>
    rw [← foldl_assign_keys, foldl_range_succ, mapFind_mapAssign, foldl_assign_keys]
    by_cases h : p = n
    · subst h; simp
    · have h2 : ¬ ((p : Int) = (n : Int)) := by omega
      rw [if_neg h2]
      exact ih (by omega)

theorem foldlM_ok_of_invariant {σ β : Type} (P : σ → Prop) (f : σ → β → Except Fault σ)
    (l : List β) (hstep : ∀ s x, x ∈ l → P s → ∃ t, f s x = .ok t ∧ P t) :
    ∀ s, P s → ∃ t, l.foldlM f s = .ok t ∧ P t := by
  induction l with
  | nil => intro s hs; exact ⟨s, rfl, hs⟩
  | cons a r ih =>
    intro s hs
    obtain ⟨u, hu, hPu⟩ := hstep s a (List.mem_cons_self _ _) hs
    rw [List.foldlM_cons, hu]
    exact ih (fun s x hx => hstep s x (List.mem_cons_of_mem _ hx)) u hPu

theorem incrementVote_ok {cnt : List (List Nat)} {rows cols p c : Nat}
    (hm : IsMatrix cnt rows cols) (hp : p < rows) (hc : c < cols) :
    ∃ out, incrementVote cnt p c = .ok out ∧ IsMatrix out rows cols := by
  have hrow := vecAt_row hm hp
  have hcell := vecAt_cell hm hp hc
  have hlen : c < (cnt.getD p []).length := by rw [hrow.2]; exact hc
  have hlen2 : p < cnt.length := by rw [hm.1]; exact hp
  have e : incrementVote cnt p c =
      .ok (cnt.set p ((cnt.getD p []).set c (cell cnt p c + 1))) := by
    unfold incrementVote
    simp only [hrow.1, hcell, vecSet, hlen, hlen2, if_true, bind, Except.bind]
  exact ⟨_, e, incrementVote_isMatrix hm e⟩

theorem mem_findBoundingBoxes_lt {kpt : KeyPoint} {bounding_boxes : List BoundingBox} {i : Nat}
    (h : i ∈ findBoundingBoxesContainingKeypoint kpt bounding_boxes) :
    i < bounding_boxes.length := by
  unfold findBoundingBoxesContainingKeypoint at h
  exact List.mem_range.mp (List.mem_filter.mp h).1

theorem voteForMatch_ok {prevFrame currFrame : DataFrame} {cnt : List (List Nat)} {m : DMatch}
    (hm : IsMatrix cnt prevFrame.boundingBoxes.length currFrame.boundingBoxes.length)
    (hin : InRange prevFrame.keypoints currFrame.keypoints m) :
    ∃ out, voteForMatch prevFrame currFrame cnt m = .ok out ∧
      IsMatrix out prevFrame.boundingBoxes.length currFrame.boundingBoxes.length := by
  obtain ⟨hq0, hq1, ht0, ht1⟩ := hin
  obtain ⟨prevKpt, hp⟩ := vecAtInt_ok_of_inRange hq0 hq1
  obtain ⟨currKpt, hc⟩ := vecAtInt_ok_of_inRange ht0 ht1
  unfold voteForMatch
  simp only [hp, hc, bind, Except.bind]
  apply foldlM_ok_of_invariant
    (fun s => IsMatrix s prevFrame.boundingBoxes.length currFrame.boundingBoxes.length)
  · intro s p hpm hs
    apply foldlM_ok_of_invariant
      (fun s => IsMatrix s prevFrame.boundingBoxes.length currFrame.boundingBoxes.length)
    · intro s2 c hcm hs2
      exact incrementVote_ok hs2 (mem_findBoundingBoxes_lt hpm) (mem_findBoundingBoxes_lt hcm)
    · exact hs
  · exact hm

/-- The voting loop succeeds when every correspondence has in-range indices. -/
theorem countVotes_ok (kptMatches : List DMatch) (prevFrame currFrame : DataFrame)
    (hin : ∀ m ∈ kptMatches, InRange prevFrame.keypoints currFrame.keypoints m) :
    ∃ cnt, countVotes kptMatches prevFrame currFrame = .ok cnt := by
  have h := foldlM_ok_of_invariant
    (fun s => IsMatrix s prevFrame.boundingBoxes.length currFrame.boundingBoxes.length)
    (voteForMatch prevFrame currFrame) kptMatches
    (fun s x hx hs => voteForMatch_ok hs (hin x hx))
    (List.replicate prevFrame.boundingBoxes.length
      (List.replicate currFrame.boundingBoxes.length 0))
    ⟨by simp, fun row hrow => by rw [List.eq_of_mem_replicate hrow]; simp⟩
  obtain ⟨cnt, hc, _⟩ := h
  exact ⟨cnt, hc⟩

/-! ### Claims on matchBoundingBoxes -/

/-- C1, evaluated on the code: with two previous regions, one current region and no
correspondences, `matchBoundingBoxes` started from an empty map returns the two
entries 0 → 0 and 1 → 0, more than min(2, 1) = 1. -/
theorem matchBoundingBoxes_size_exceeds_min :
    matchBoundingBoxes [] [] twoRegionFrame oneRegionFrame = .ok [(0, 0), (1, 0)] ∧
      min twoRegionFrame.boundingBoxes.length oneRegionFrame.boundingBoxes.length <
        [((0 : Int), (0 : Int)), (1, 0)].length := by
  decide!

/-- C2, evaluated on the code: with two previous regions and one current region,
three correspondences voting for (0, 0) and one for (1, 0), the map returned by
`matchBoundingBoxes` sends the distinct previous ids 0 and 1 to the same current id 0. -/
theorem matchBoundingBoxes_not_injective :
    ∃ m, matchBoundingBoxes fourMatches [] twoRegionFrame wideRegionFrame = .ok m ∧
      mapFind m 0 = some 0 ∧ mapFind m 1 = some 0 := by
  refine ⟨[(0, 0), (1, 0)], ?_, ?_, ?_⟩ <;> decide!

/-- C3: for two frames with at least one region each (ids equal to positions) and
a correspondence list with in-range indices, the voting loop builds a vote matrix
`cnt` and `matchBoundingBoxes` returns a map in which, when Pn ≤ Cn, every entry is
`p → c` with `p` the smallest previous index of maximal vote in column `c`, and, when
Pn > Cn, every previous index `p` is mapped to the smallest current index of maximal
vote in row `p`. -/
theorem matchBoundingBoxes_picks_first_maximum (kptMatches : List DMatch)
    (prevFrame currFrame : DataFrame)
    (hprev : PositionalIds prevFrame.boundingBoxes)
    (hcurr : PositionalIds currFrame.boundingBoxes)
    (hP : 1 ≤ prevFrame.boundingBoxes.length) (hC : 1 ≤ currFrame.boundingBoxes.length)
    (hin : ∀ m ∈ kptMatches, InRange prevFrame.keypoints currFrame.keypoints m) :
    ∃ cnt m, countVotes kptMatches prevFrame currFrame = .ok cnt ∧
      matchBoundingBoxes kptMatches [] prevFrame currFrame = .ok m ∧
      (prevFrame.boundingBoxes.length ≤ currFrame.boundingBoxes.length →
        ∀ e ∈ m, ∃ p c : Nat, e = ((p : Int), (c : Int)) ∧
          c < currFrame.boundingBoxes.length ∧
          IsFirstMax (fun q => cell cnt q c) prevFrame.boundingBoxes.length p) ∧
      (currFrame.boundingBoxes.length < prevFrame.boundingBoxes.length →
        ∀ p : Nat, p < prevFrame.boundingBoxes.length →
          ∃ c : Nat, mapFind m (p : Int) = some (c : Int) ∧
            IsFirstMax (fun d => cell cnt p d) currFrame.boundingBoxes.length c) := by
  obtain ⟨cnt, hv⟩ := countVotes_ok kptMatches prevFrame currFrame hin
  refine ⟨cnt, _, hv, matchBoundingBoxes_eq hv hprev hcurr (by omega) [], ?_, ?_⟩
  · intro hle e he
    unfold bestMatchesOf at he
    rw [if_pos hle] at he
    obtain ⟨c, hc, hce⟩ := foldl_assign_values_mem _ _ e he
    exact ⟨_, c, hce, hc, firstMax_isFirstMax _ _ hP⟩
  · intro hlt p hp
    unfold bestMatchesOf
    rw [if_neg (by omega), foldl_assign_keys]
    refine ⟨rowBest cnt currFrame.boundingBoxes.length p, ?_, firstMax_isFirstMax _ _ hC⟩
    exact mapFind_keys _ _ _ hp

/-- Witness of C3 on both branches. With three regions per frame and the votes
`[[2, 1, 1], [2, 3, 0], [0, 3, 0]]` the picks per column are 0 (tie of rows 0 and 1),
1 (tie of rows 1 and 2) and 0, and the map is {0 → 2, 1 → 1}. With three previous and
two current regions and the votes `[[1, 1], [0, 2], [0, 0]]` the picks per row are
0 (tie), 1 and 0, and the map is {0 → 0, 1 → 1, 2 → 0}. -/
theorem matchBoundingBoxes_picks_first_maximum_witness :
    (countVotes tiedColumnMatches threeRegionFrame threeRegionFrame =
        .ok [[2, 1, 1], [2, 3, 0], [0, 3, 0]] ∧
      matchBoundingBoxes tiedColumnMatches [] threeRegionFrame threeRegionFrame =
        .ok [(0, 2), (1, 1)] ∧
      IsFirstMax (fun q => cell [[2, 1, 1], [2, 3, 0], [0, 3, 0]] q 2) 3 0 ∧
      IsFirstMax (fun q => cell [[2, 1, 1], [2, 3, 0], [0, 3, 0]] q 1) 3 1 ∧
      ∃ cnt m, countVotes tiedColumnMatches threeRegionFrame threeRegionFrame = .ok cnt ∧
        matchBoundingBoxes tiedColumnMatches [] threeRegionFrame threeRegionFrame = .ok m ∧
        (threeRegionFrame.boundingBoxes.length ≤ threeRegionFrame.boundingBoxes.length →
          ∀ e ∈ m, ∃ p c : Nat, e = ((p : Int), (c : Int)) ∧
            c < threeRegionFrame.boundingBoxes.length ∧
            IsFirstMax (fun q => cell cnt q c) threeRegionFrame.boundingBoxes.length p) ∧
        (threeRegionFrame.boundingBoxes.length < threeRegionFrame.boundingBoxes.length →
          ∀ p : Nat, p < threeRegionFrame.boundingBoxes.length →
            ∃ c : Nat, mapFind m (p : Int) = some (c : Int) ∧
              IsFirstMax (fun d => cell cnt p d) threeRegionFrame.boundingBoxes.length c)) ∧
    (countVotes tiedRowMatches threeRegionFrame twoRegionFrame =
        .ok [[1, 1], [0, 2], [0, 0]] ∧
      matchBoundingBoxes tiedRowMatches [] threeRegionFrame twoRegionFrame =
        .ok [(0, 0), (1, 1), (2, 0)] ∧
      IsFirstMax (fun d => cell [[1, 1], [0, 2], [0, 0]] 0 d) 2 0 ∧
      IsFirstMax (fun d => cell [[1, 1], [0, 2], [0, 0]] 1 d) 2 1 ∧
      IsFirstMax (fun d => cell [[1, 1], [0, 2], [0, 0]] 2 d) 2 0 ∧
      ∃ cnt m, countVotes tiedRowMatches threeRegionFrame twoRegionFrame = .ok cnt ∧
        matchBoundingBoxes tiedRowMatches [] threeRegionFrame twoRegionFrame = .ok m ∧
        (threeRegionFrame.boundingBoxes.length ≤ twoRegionFrame.boundingBoxes.length →
          ∀ e ∈ m, ∃ p c : Nat, e = ((p : Int), (c : Int)) ∧
            c < twoRegionFrame.boundingBoxes.length ∧
            IsFirstMax (fun q => cell cnt q c) threeRegionFrame.boundingBoxes.length p) ∧
        (twoRegionFrame.boundingBoxes.length < threeRegionFrame.boundingBoxes.length →
          ∀ p : Nat, p < threeRegionFrame.boundingBoxes.length →
            ∃ c : Nat, mapFind m (p : Int) = some (c : Int) ∧
              IsFirstMax (fun d => cell cnt p d) twoRegionFrame.boundingBoxes.length c)) :=
  ⟨⟨by decide!, by decide!, by decide!, by decide!,
      matchBoundingBoxes_picks_first_maximum tiedColumnMatches threeRegionFrame
        threeRegionFrame (by decide!) (by decide!) (by decide!) (by decide!) (by decide!)⟩,
    ⟨by decide!, by decide!, by decide!, by decide!, by decide!,
      matchBoundingBoxes_picks_first_maximum tiedRowMatches threeRegionFrame
        twoRegionFrame (by decide!) (by decide!) (by decide!) (by decide!) (by decide!)⟩⟩

theorem colBest_diagonal {cnt : List (List Nat)} {n c : Nat} (hc : c < n)
    (hoff : ∀ p, p < n → ∀ d, d < n → p ≠ d → cell cnt p d = 0)
    (hdiag : ∀ i, i < n → 1 ≤ cell cnt i i) : colBest cnt n c = c := by
  have h1 : IsFirstMax (fun p => cell cnt p c) n (colBest cnt n c) :=
    firstMax_isFirstMax _ _ (by omega)
  have h2 : IsFirstMax (fun p => cell cnt p c) n c := by
    refine ⟨hc, ?_, ?_⟩
    · intro q hq
      by_cases hqc : q = c
      · subst hqc; exact le_refl _
      · show cell cnt q c ≤ cell cnt c c
        rw [hoff q hq c hc hqc]; exact Nat.zero_le _
    · intro q hq
      show cell cnt q c < cell cnt c c
      rw [hoff q (by omega) c hc (by omega)]
      exact hdiag c hc
  exact isFirstMax_unique h1 h2

/-- C4: for two frames with the same number of regions (ids equal to positions) and
a correspondence list whose votes fall only on the diagonal cells, each diagonal
cell receiving at least one vote, `matchBoundingBoxes` started from an empty map
returns the identity mapping `i → i`. -/
theorem matchBoundingBoxes_diagonal_identity (kptMatches : List DMatch)
    (prevFrame currFrame : DataFrame) (cnt : List (List Nat))
    (hprev : PositionalIds prevFrame.boundingBoxes)
    (hcurr : PositionalIds currFrame.boundingBoxes)
    (hn : prevFrame.boundingBoxes.length = currFrame.boundingBoxes.length)
    (hv : countVotes kptMatches prevFrame currFrame = .ok cnt)
    (hoff : ∀ p, p < prevFrame.boundingBoxes.length →
      ∀ c, c < prevFrame.boundingBoxes.length → p ≠ c → cell cnt p c = 0)
    (hdiag : ∀ i, i < prevFrame.boundingBoxes.length → 1 ≤ cell cnt i i) :
    matchBoundingBoxes kptMatches [] prevFrame currFrame =
      .ok ((List.range prevFrame.boundingBoxes.length).map
        (fun (i : Nat) => ((i : Int), (i : Int)))) := by
  rw [matchBoundingBoxes_eq hv hprev hcurr (by omega) []]
  unfold bestMatchesOf
  rw [if_pos (by omega), ← hn, ← foldl_assign_keys (fun i => i)]
  congr 1
  apply List.foldl_ext
  intro m c hc
  rw [colBest_diagonal (List.mem_range.mp hc) hoff hdiag]

/-- Witness of C4, the scenario of the specification: two regions per frame, three
correspondences voting for (0, 0) and one for (1, 1) give exactly {0 → 0, 1 → 1}. -/
theorem matchBoundingBoxes_diagonal_identity_witness :
    countVotes fourMatches twoRegionFrame twoRegionFrame = .ok [[3, 0], [0, 1]] ∧
    matchBoundingBoxes fourMatches [] twoRegionFrame twoRegionFrame =
      .ok [(0, 0), (1, 1)] :=
  ⟨by decide!,
    matchBoundingBoxes_diagonal_identity fourMatches twoRegionFrame twoRegionFrame
      [[3, 0], [0, 1]] (by decide!) (by decide!) (by decide!) (by decide!) (by decide!)
      (by decide!)⟩

/-- C5: with an empty correspondence list and at least one region per frame (ids
equal to positions) `matchBoundingBoxes` does not fail and every best-index pick is
index 0: when Pn ≤ Cn every entry of the returned map has previous id 0 (the map is
the single entry 0 → Cn - 1), and when Pn > Cn every previous region is mapped to
current id 0. -/
theorem matchBoundingBoxes_empty_matches_default_zero (prevFrame currFrame : DataFrame)
    (hprev : PositionalIds prevFrame.boundingBoxes)
    (hcurr : PositionalIds currFrame.boundingBoxes)
    (hP : 1 ≤ prevFrame.boundingBoxes.length) (hC : 1 ≤ currFrame.boundingBoxes.length) :
    ∃ m, matchBoundingBoxes [] [] prevFrame currFrame = .ok m ∧
      (prevFrame.boundingBoxes.length ≤ currFrame.boundingBoxes.length →
        m = [((0 : Int), ((currFrame.boundingBoxes.length - 1 : Nat) : Int))] ∧
        ∀ e ∈ m, e.1 = 0) ∧
      (currFrame.boundingBoxes.length < prevFrame.boundingBoxes.length →
        m.length = prevFrame.boundingBoxes.length ∧
        ∀ p : Nat, p < prevFrame.boundingBoxes.length → mapFind m (p : Int) = some 0) := by
  have hv : countVotes [] prevFrame currFrame =
      .ok (List.replicate prevFrame.boundingBoxes.length
        (List.replicate currFrame.boundingBoxes.length 0)) := rfl
  have hcol : ∀ k c, colBest (List.replicate prevFrame.boundingBoxes.length
      (List.replicate currFrame.boundingBoxes.length 0)) k c = 0 := by
    intro k c
    unfold colBest
    simp only [cell_replicate]
    exact firstMax_zero k
  have hrow : ∀ j p, rowBest (List.replicate prevFrame.boundingBoxes.length
      (List.replicate currFrame.boundingBoxes.length 0)) j p = 0 := by
    intro j p
    unfold rowBest
    simp only [cell_replicate]
    exact firstMax_zero j
  refine ⟨_, matchBoundingBoxes_eq hv hprev hcurr (by omega) [], ?_, ?_⟩
  · intro hle
    have e : bestMatchesOf (List.replicate prevFrame.boundingBoxes.length
        (List.replicate currFrame.boundingBoxes.length 0)) []
        prevFrame.boundingBoxes.length currFrame.boundingBoxes.length =
        [((0 : Int), ((currFrame.boundingBoxes.length - 1 : Nat) : Int))] := by
      unfold bestMatchesOf
      rw [if_pos hle]
      simp only [hcol]
      obtain ⟨n, hn⟩ : ∃ n, currFrame.boundingBoxes.length = n + 1 := ⟨_, (Nat.sub_add_cancel hC).symm⟩
      rw [hn]
      exact foldl_assign_zero n
    rw [e]
    refine ⟨rfl, ?_⟩
    intro x hx
    rw [List.mem_singleton.mp hx]
  · intro hlt
    have e : bestMatchesOf (List.replicate prevFrame.boundingBoxes.length
        (List.replicate currFrame.boundingBoxes.length 0)) []
        prevFrame.boundingBoxes.length currFrame.boundingBoxes.length =
        (List.range prevFrame.boundingBoxes.length).map
          (fun (p : Nat) => ((p : Int), (((fun _ => 0) p : Nat) : Int))) := by
      unfold bestMatchesOf
      rw [if_neg (by omega)]
      simp only [hrow]
      exact foldl_assign_keys (fun _ => 0) _
    rw [e]
    refine ⟨by simp, ?_⟩
    intro p hp
    exact mapFind_keys (fun _ => 0) _ p hp

/-- Witness of C5 on two previous regions and one current region. -/
theorem matchBoundingBoxes_empty_matches_default_zero_witness :
    ∃ m, matchBoundingBoxes [] [] twoRegionFrame oneRegionFrame = .ok m ∧
      (twoRegionFrame.boundingBoxes.length ≤ oneRegionFrame.boundingBoxes.length →
        m = [((0 : Int), ((oneRegionFrame.boundingBoxes.length - 1 : Nat) : Int))] ∧
        ∀ e ∈ m, e.1 = 0) ∧
      (oneRegionFrame.boundingBoxes.length < twoRegionFrame.boundingBoxes.length →
        m.length = twoRegionFrame.boundingBoxes.length ∧
        ∀ p : Nat, p < twoRegionFrame.boundingBoxes.length → mapFind m (p : Int) = some 0) :=
  matchBoundingBoxes_empty_matches_default_zero twoRegionFrame oneRegionFrame
    (by decide!) (by decide!) (by decide!) (by decide!)

/-- With more previous than current regions the filled map has one entry per
previous region: `p → ` the best current index of row `p`, for every `p < Pn`. -/
theorem matchBoundingBoxes_more_prev_regions (kptMatches : List DMatch)
    (prevFrame currFrame : DataFrame) (cnt : List (List Nat))
    (hprev : PositionalIds prevFrame.boundingBoxes)
    (hcurr : PositionalIds currFrame.boundingBoxes)
    (hC : 1 ≤ currFrame.boundingBoxes.length)
    (hlt : currFrame.boundingBoxes.length < prevFrame.boundingBoxes.length)
    (hv : countVotes kptMatches prevFrame currFrame = .ok cnt) :
    matchBoundingBoxes kptMatches [] prevFrame currFrame =
      .ok ((List.range prevFrame.boundingBoxes.length).map (fun (p : Nat) =>
        ((p : Int), ((rowBest cnt currFrame.boundingBoxes.length p : Nat) : Int)))) := by
  rw [matchBoundingBoxes_eq hv hprev hcurr (by omega) []]
  unfold bestMatchesOf
  rw [if_neg (by omega), foldl_assign_keys]

/-! ### clusterLidarWithROI -/

theorem eq_singleton_of_nodup {l : List Nat} {r : Nat} (hnd : l.Nodup)
    (hmem : ∀ x, x ∈ l ↔ x = r) : l = [r] := by
  match l, hnd, hmem with
  | [], _, hmem => exact absurd ((hmem r).mpr rfl) (List.not_mem_nil r)
  | [a], _, hmem =>
    have : a = r := (hmem a).mp (List.mem_cons_self _ _)
    rw [this]
  | a :: b :: t, hnd, hmem =>
    have ha : a = r := (hmem a).mp (List.mem_cons_self _ _)
    have hb : b = r := (hmem b).mp (List.mem_cons_of_mem _ (List.mem_cons_self _ _))
    have hne : a ∉ b :: t := (List.nodup_cons.mp hnd).1
    exact absurd (by rw [ha, hb]; exact List.mem_cons_self _ _) hne

theorem filter_range_eq_singleton (P : Nat → Bool) (n r : Nat) :
    (List.range n).filter P = [r] ↔
      (r < n ∧ P r = true ∧ ∀ i, i < n → i ≠ r → P i = false) := by
  constructor
  · intro h
    have hr : r ∈ (List.range n).filter P := by rw [h]; exact List.mem_singleton.mpr rfl
    obtain ⟨hr1, hr2⟩ := List.mem_filter.mp hr
    refine ⟨List.mem_range.mp hr1, hr2, ?_⟩
    intro i hi hne
    by_contra hP
    have hPi : P i = true := by simpa using hP
    have : i ∈ (List.range n).filter P := List.mem_filter.mpr ⟨List.mem_range.mpr hi, hPi⟩
    rw [h] at this
    exact hne (List.mem_singleton.mp this)
  · rintro ⟨hr, hP, hother⟩
    apply eq_singleton_of_nodup ((List.nodup_range n).filter _)
    intro x
    constructor
    · intro hx
      obtain ⟨hx1, hx2⟩ := List.mem_filter.mp hx
      by_contra hne
      have := hother x (List.mem_range.mp hx1) hne
      rw [this] at hx2
      cases hx2
    · intro hx
      subst hx
      exact List.mem_filter.mpr ⟨List.mem_range.mpr hr, hP⟩

theorem inShrunkBox_lt {boundingBoxes : List BoundingBox} {shrinkFactor : ℚ} {pt : Point}
    {i : Nat} (h : inShrunkBox boundingBoxes shrinkFactor pt i = true) :
    i < boundingBoxes.length := by
  by_contra hlt
  have : boundingBoxes[i]? = none := List.getElem?_eq_none (by omega)
  simp [inShrunkBox, this] at h

theorem enclosedOnlyBy_iff (boundingBoxes : List BoundingBox) (shrinkFactor : ℚ) (r : Nat)
    (pt : Point) :
    enclosedOnlyBy boundingBoxes shrinkFactor r pt = true ↔
      (inShrunkBox boundingBoxes shrinkFactor pt r = true ∧
        ∀ i, i ≠ r → inShrunkBox boundingBoxes shrinkFactor pt i = false) := by
  unfold enclosedOnlyBy
  rw [Bool.and_eq_true, List.all_eq_true]
  constructor
  · rintro ⟨h1, h2⟩
    refine ⟨h1, ?_⟩
    intro i hne
    by_cases hi : i < boundingBoxes.length
    · have := h2 i (List.mem_range.mpr hi)
      simpa [hne] using this
    · by_contra hc
      have hc2 : inShrunkBox boundingBoxes shrinkFactor pt i = true := by simpa using hc
      exact hi (inShrunkBox_lt hc2)
  · rintro ⟨h1, h2⟩
    refine ⟨h1, ?_⟩
    intro i _
    by_cases hne : i = r
    · simp [hne]
    · simp [hne, h2 i hne]

theorem enclosingBoxes_eq_singleton (boundingBoxes : List BoundingBox) (shrinkFactor : ℚ)
    (r : Nat) (pt : Point) :
    enclosingBoxes boundingBoxes shrinkFactor pt = [r] ↔
      enclosedOnlyBy boundingBoxes shrinkFactor r pt = true := by
  unfold enclosingBoxes
  rw [filter_range_eq_singleton, enclosedOnlyBy_iff]
  constructor
  · rintro ⟨_, h2, h3⟩
    refine ⟨h2, ?_⟩
    intro i hne
    by_cases hi : i < boundingBoxes.length
    · exact h3 i hi hne
    · by_contra hc
      have hc2 : inShrunkBox boundingBoxes shrinkFactor pt i = true := by simpa using hc
      exact hi (inShrunkBox_lt hc2)
  · rintro ⟨h1, h2⟩
    exact ⟨inShrunkBox_lt h1, h1, fun i _ hne => h2 i hne⟩

theorem pushLidarPoint_length (boundingBoxes : List BoundingBox) (i : Nat) (p : LidarPoint) :
    (pushLidarPoint boundingBoxes i p).length = boundingBoxes.length := by
  unfold pushLidarPoint
  split <;> simp

theorem pushLidarPoint_inShrunkBox (boundingBoxes : List BoundingBox) (i : Nat)
    (p : LidarPoint) (shrinkFactor : ℚ) (pt : Point) (j : Nat) :
    inShrunkBox (pushLidarPoint boundingBoxes i p) shrinkFactor pt j =
      inShrunkBox boundingBoxes shrinkFactor pt j := by
  unfold pushLidarPoint
  split
  · rename_i b hb
    unfold inShrunkBox
    by_cases hij : i = j
    · subst hij
      have hlt : i < boundingBoxes.length := by
        by_contra hlt
        rw [List.getElem?_eq_none (by omega)] at hb
        cases hb
      rw [List.getElem?_set_self hlt, hb]
    · rw [List.getElem?_set_ne hij]
  · rfl

theorem clusterLidarStep_length (project : LidarPoint → Point) (shrinkFactor : ℚ)
    (boundingBoxes : List BoundingBox) (p : LidarPoint) :
    (clusterLidarStep project shrinkFactor boundingBoxes p).length = boundingBoxes.length := by
  unfold clusterLidarStep
  split
  · exact pushLidarPoint_length _ _ _
  · rfl

theorem clusterLidarStep_inShrunkBox (project : LidarPoint → Point) (shrinkFactor : ℚ)
    (boundingBoxes : List BoundingBox) (p : LidarPoint) (pt : Point) (j : Nat) :
    inShrunkBox (clusterLidarStep project shrinkFactor boundingBoxes p) shrinkFactor pt j =
      inShrunkBox boundingBoxes shrinkFactor pt j := by
  unfold clusterLidarStep
  split
  · exact pushLidarPoint_inShrunkBox _ _ _ _ _ _
  · rfl

theorem enclosedOnlyBy_congr {bs1 bs2 : List BoundingBox} {shrinkFactor : ℚ}
    (hlen : bs1.length = bs2.length)
    (hin : ∀ pt j, inShrunkBox bs1 shrinkFactor pt j = inShrunkBox bs2 shrinkFactor pt j)
    (r : Nat) (pt : Point) :
    enclosedOnlyBy bs1 shrinkFactor r pt = enclosedOnlyBy bs2 shrinkFactor r pt := by
  unfold enclosedOnlyBy
  rw [hlen]
  simp only [hin]

theorem clusterLidarStep_getElem? (project : LidarPoint → Point) (shrinkFactor : ℚ)
    (boundingBoxes : List BoundingBox) (p : LidarPoint) (r : Nat) (b : BoundingBox)
    (hb : boundingBoxes[r]? = some b) :
    (clusterLidarStep project shrinkFactor boundingBoxes p)[r]? =
      some (if enclosedOnlyBy boundingBoxes shrinkFactor r (project p) = true
        then { b with lidarPoints := b.lidarPoints ++ [p] } else b) := by
  have hlt : r < boundingBoxes.length := by
    by_contra hlt
    rw [List.getElem?_eq_none (by omega)] at hb
    cases hb
  by_cases henc : enclosedOnlyBy boundingBoxes shrinkFactor r (project p) = true
  · have h1 := (enclosingBoxes_eq_singleton boundingBoxes shrinkFactor r (project p)).mpr henc
    unfold clusterLidarStep
    rw [h1, if_pos henc]
    show (pushLidarPoint boundingBoxes r p)[r]? = _
    unfold pushLidarPoint
    rw [hb]
    exact List.getElem?_set_self hlt
  · rw [if_neg henc]
    unfold clusterLidarStep
    split
    · rename_i i hi
      have hne : i ≠ r := by
        intro e
        rw [e] at hi
        exact henc ((enclosingBoxes_eq_singleton _ _ _ _).mp hi)
      unfold pushLidarPoint
      split
      · rw [List.getElem?_set_ne hne, hb]
      · exact hb
    · exact hb

theorem clusterLidar_fold (project : LidarPoint → Point) (shrinkFactor : ℚ)
    (boxes0 : List BoundingBox) (r : Nat) (lidarPoints : List LidarPoint) :
    ∀ (boundingBoxes : List BoundingBox) (b : BoundingBox),
      boundingBoxes.length = boxes0.length →
      (∀ pt j, inShrunkBox boundingBoxes shrinkFactor pt j =
        inShrunkBox boxes0 shrinkFactor pt j) →
      boundingBoxes[r]? = some b →
      (lidarPoints.foldl (clusterLidarStep project shrinkFactor) boundingBoxes)[r]? =
        some { b with lidarPoints := (b.lidarPoints ++
          lidarPoints.filter (fun p => enclosedOnlyBy boxes0 shrinkFactor r (project p))) } ∧
      (lidarPoints.foldl (clusterLidarStep project shrinkFactor) boundingBoxes).length =
        boxes0.length := by
  induction lidarPoints with
  | nil =>
    intro boundingBoxes b hlen _ hb
    simp [hb, hlen]
  | cons p rest ih =>
    intro boundingBoxes b hlen hin hb
    rw [List.foldl_cons]
    have hstep := clusterLidarStep_getElem? project shrinkFactor boundingBoxes p r b hb
    rw [enclosedOnlyBy_congr hlen hin] at hstep
    have hlen2 : (clusterLidarStep project shrinkFactor boundingBoxes p).length =
        boxes0.length := by rw [clusterLidarStep_length, hlen]
    have hin2 : ∀ pt j, inShrunkBox (clusterLidarStep project shrinkFactor boundingBoxes p)
        shrinkFactor pt j = inShrunkBox boxes0 shrinkFactor pt j := by
      intro pt j; rw [clusterLidarStep_inShrunkBox, hin]
    obtain ⟨h1, h2⟩ := ih _ _ hlen2 hin2 hstep
    refine ⟨?_, h2⟩
    rw [h1]
    by_cases henc : enclosedOnlyBy boxes0 shrinkFactor r (project p) = true
    · simp [henc, List.filter_cons]
    · simp [henc, List.filter_cons]

theorem inShrunkBox_iff (boundingBoxes : List BoundingBox) (shrinkFactor : ℚ) (pt : Point)
    (i : Nat) :
    inShrunkBox boundingBoxes shrinkFactor pt i = true ↔
      ∃ b, boundingBoxes[i]? = some b ∧ InsideRect (shrinkBox b.roi shrinkFactor) pt := by
  unfold inShrunkBox
  cases h : boundingBoxes[i]? with
  | none => simp
  | some b =>
    simp only [Rect.contains, Bool.and_eq_true, decide_eq_true_eq, InsideRect, Option.some.injEq,
      exists_eq_left', and_assoc]

theorem enclosedOnlyBy_iff_claim (boundingBoxes : List BoundingBox) (shrinkFactor : ℚ)
    (r : Nat) (pt : Point) :
    enclosedOnlyBy boundingBoxes shrinkFactor r pt = true ↔
      EnclosedOnlyBy boundingBoxes shrinkFactor r pt := by
  rw [enclosedOnlyBy_iff, inShrunkBox_iff]
  unfold EnclosedOnlyBy
  constructor
  · rintro ⟨h1, h2⟩
    refine ⟨h1, ?_⟩
    intro i b hne hb hin
    have h3 := h2 i hne
    have h4 : inShrunkBox boundingBoxes shrinkFactor pt i = true :=
      (inShrunkBox_iff boundingBoxes shrinkFactor pt i).mpr ⟨b, hb, hin⟩
    rw [h3] at h4
    cases h4
  · rintro ⟨h1, h2⟩
    refine ⟨h1, ?_⟩
    intro i hne
    by_contra hc
    have hc2 : inShrunkBox boundingBoxes shrinkFactor pt i = true := by simpa using hc
    obtain ⟨b, hb, hin⟩ := (inShrunkBox_iff boundingBoxes shrinkFactor pt i).mp hc2
    exact h2 i b hne hb hin

/-- C6: for every projection, region list, point collection and shrink factor (the
factors in [0, 1) among them), `clusterLidarWithROI` keeps the number of regions, and
the region at position `r` leaves it with exactly the points appended, in order,
whose projected pixel lies inside the shrunk rectangle of `r` and inside the shrunk
rectangle of no other region, everything else of the region unchanged; so a point
inside two shrunk rectangles is appended to none and no point is appended to two
regions. The shrunk rectangle is the one lines 43-46 compute in `float`: for the
region 150 × 100 at the origin and the factor `0.22f` it is 116 × 78 at (16, 11). -/
theorem clusterLidarWithROI_appends_iff_only_encloser (project : LidarPoint → Point)
    (boundingBoxes : List BoundingBox) (lidarPoints : List LidarPoint) (shrinkFactor : ℚ) :
    (clusterLidarWithROI project boundingBoxes lidarPoints shrinkFactor).length =
        boundingBoxes.length ∧
    (∀ (r : Nat) (b : BoundingBox), boundingBoxes[r]? = some b →
      (clusterLidarWithROI project boundingBoxes lidarPoints shrinkFactor)[r]? =
        some { b with lidarPoints := (b.lidarPoints ++ lidarPoints.filter
          (fun p => enclosedOnlyBy boundingBoxes shrinkFactor r (project p))) }) ∧
    (∀ (r : Nat) (pt : Point), enclosedOnlyBy boundingBoxes shrinkFactor r pt = true ↔
      EnclosedOnlyBy boundingBoxes shrinkFactor r pt) ∧
    (∀ (r1 r2 : Nat) (pt : Point), r1 ≠ r2 →
      EnclosedOnlyBy boundingBoxes shrinkFactor r1 pt →
      ¬ EnclosedOnlyBy boundingBoxes shrinkFactor r2 pt) ∧
    shrinkBox ⟨0, 0, 150, 100⟩ shrink22 = ⟨16, 11, 116, 78⟩ := by
  refine ⟨?_, ?_, ?_, ?_, by decide!⟩
  · unfold clusterLidarWithROI
    match boundingBoxes with
    | [] =>
      have : ∀ l : List LidarPoint, l.foldl (clusterLidarStep project shrinkFactor) [] = [] := by
        intro l
        induction l with
        | nil => rfl
        | cons p t ih => rw [List.foldl_cons]; exact ih
      rw [this]
    | b :: t =>
      exact (clusterLidar_fold project shrinkFactor (b :: t) 0 lidarPoints (b :: t) b rfl
        (fun _ _ => rfl) (by simp)).2
  · intro r b hb
    exact (clusterLidar_fold project shrinkFactor boundingBoxes r lidarPoints boundingBoxes b
      rfl (fun _ _ => rfl) hb).1
  · intro r pt
    exact enclosedOnlyBy_iff_claim boundingBoxes shrinkFactor r pt
  · intro r1 r2 pt hne h1 h2
    obtain ⟨b, hb, hin⟩ := h2.1
    exact h1.2 r2 b (Ne.symm hne) hb hin

/-- Witness of C6 on two overlapping regions and the factor `0.22f`: the shrunk
rectangles are 116 × 78 at (16, 11) and at (116, 11); of the six points only the
first is appended to region 0 and only the third and the fifth to region 1; the
point inside both shrunk rectangles and the points inside a rectangle but outside
its shrunk one are appended to none. -/
theorem clusterLidarWithROI_appends_iff_only_encloser_witness :
    (0 ≤ shrink22 ∧ shrink22 < 1) ∧
    shrinkBox ⟨100, 0, 150, 100⟩ shrink22 = ⟨116, 11, 116, 78⟩ ∧
    clusterLidarWithROI planarProjection overlappingBoxes sixLidarPoints shrink22 =
      [{ mkBox 0 ⟨0, 0, 150, 100⟩ with lidarPoints := [lidarAt 50 50] },
       { mkBox 1 ⟨100, 0, 150, 100⟩ with lidarPoints := [lidarAt 132 50, lidarAt 200 50] }] ∧
    (clusterLidarWithROI planarProjection overlappingBoxes sixLidarPoints shrink22).length =
      overlappingBoxes.length ∧
    shrinkBox ⟨0, 0, 150, 100⟩ shrink22 = ⟨16, 11, 116, 78⟩ :=
  ⟨by decide!, by decide!, by decide!,
    (clusterLidarWithROI_appends_iff_only_encloser planarProjection overlappingBoxes
      sixLidarPoints shrink22).1,
    (clusterLidarWithROI_appends_iff_only_encloser planarProjection overlappingBoxes
      sixLidarPoints shrink22).2.2.2.2⟩

/-! ### clusterKptMatchesWithROI -/

theorem readCutoff_out_of_range (euclideanDistances : List ℚ) :
    readCutoff euclideanDistances = .error .outOfRange := by
  unfold readCutoff derefReverse vecAt
  have : euclideanDistances.reverse[euclideanDistances.length +
      rOffset euclideanDistances.length]? = none :=
    List.getElem?_eq_none (by simp)
  simp only [this]

theorem retainStep_eq (norm : ℚ → ℚ → ℚ) (kptsPrev kptsCurr : List KeyPoint) (cutoff : ℚ)
    (boundingBox : BoundingBox) (m : DMatch) (hin : InRange kptsPrev kptsCurr m) :
    retainStep norm kptsPrev kptsCurr cutoff boundingBox m =
      .ok (retainPure norm kptsPrev kptsCurr cutoff boundingBox m) := by
  obtain ⟨hq0, hq1, ht0, ht1⟩ := hin
  obtain ⟨currKpt, hc⟩ := vecAtInt_ok_of_inRange ht0 ht1
  obtain ⟨prevKpt, hp⟩ := vecAtInt_ok_of_inRange hq0 hq1
  unfold retainStep retainPure inRoi withinCutoff currKptOf
  simp only [hc, hp, bind, Except.bind, pure, Except.pure]
  by_cases h1 : boundingBox.roi.contains currKpt.pt.toPoint = true
  · by_cases h2 : kptDistance norm currKpt prevKpt ≤ cutoff
    · simp [h1, h2]
    · simp [h1, h2]
  · simp [h1]

theorem retainPure_fold (norm : ℚ → ℚ → ℚ) (kptsPrev kptsCurr : List KeyPoint) (cutoff : ℚ)
    (roi : Rect) (kptMatches : List DMatch) :
    ∀ boundingBox : BoundingBox, boundingBox.roi = roi →
      kptMatches.foldl (retainPure norm kptsPrev kptsCurr cutoff) boundingBox =
        { boundingBox with
          keypoints := boundingBox.keypoints ++
            (kptMatches.filter (fun m => inRoi roi kptsCurr m &&
              withinCutoff norm kptsPrev kptsCurr cutoff m)).map (currKptOf kptsCurr)
          kptMatches := boundingBox.kptMatches ++
            kptMatches.filter (fun m => inRoi roi kptsCurr m &&
              withinCutoff norm kptsPrev kptsCurr cutoff m) } := by
  induction kptMatches with
  | nil => intro boundingBox _; simp
  | cons m rest ih =>
    intro boundingBox hroi
    rw [List.foldl_cons]
    have hroi2 : (retainPure norm kptsPrev kptsCurr cutoff boundingBox m).roi = roi := by
      unfold retainPure
      split <;> exact hroi
    rw [ih _ hroi2]
    unfold retainPure
    rw [hroi]
    by_cases h : (inRoi roi kptsCurr m && withinCutoff norm kptsPrev kptsCurr cutoff m) = true
    · simp [h, List.filter_cons]
    · simp [h, List.filter_cons, hroi]

/-- C7, evaluated on the code: for a region with exactly ten in-rectangle
correspondences of displacements 1, ..., 10 the offset `r_offset` is 2, and the cutoff
is read two positions past `crend()` of the ten displacements, outside the multiset:
`clusterKptMatchesWithROI` has no defined cutoff and retains no defined set. The
position `r_offset` counted from `crbegin()` holds 8, the cutoff with which the
re-scan keeps exactly the eight smallest displacements. -/
theorem clusterKptMatchesWithROI_ten_cutoff_out_of_range :
    collectDistances axisNorm squareBox.roi tenPrevKpts tenCurrKpts (identityMatches 10) =
        .ok [1, 2, 3, 4, 5, 6, 7, 8, 9, 10] ∧
      rOffset 10 = 2 ∧
      readCutoff [1, 2, 3, 4, 5, 6, 7, 8, 9, 10] = .error .outOfRange ∧
      clusterKptMatchesWithROI axisNorm squareBox tenPrevKpts tenCurrKpts (identityMatches 10) =
        .error .outOfRange ∧
      derefReverse [1, 2, 3, 4, 5, 6, 7, 8, 9, 10] (rOffset 10) = .ok 8 ∧
      (retainInliers axisNorm tenPrevKpts tenCurrKpts 8 squareBox (identityMatches 10)).map
        (fun b => b.kptMatches) = .ok (identityMatches 8) := by
  decide!

/-- The re-scan loop of `clusterKptMatchesWithROI` (lines 169-183), for a
correspondence list with in-range indices and any cutoff value: it appends to the
region exactly the correspondences (and their current-frame keypoints, in order)
whose current-frame keypoint lies inside the region rectangle and whose displacement
is at most the cutoff; nothing else of the region changes, and the number retained is
at most the number of in-rectangle correspondences. The function is this loop applied
to the cutoff it reads. -/
theorem retainInliers_appends_exactly_within_cutoff (norm : ℚ → ℚ → ℚ)
    (boundingBox : BoundingBox) (kptsPrev kptsCurr : List KeyPoint)
    (kptMatches : List DMatch) (cutoff : ℚ)
    (hin : ∀ m ∈ kptMatches, InRange kptsPrev kptsCurr m) :
    retainInliers norm kptsPrev kptsCurr cutoff boundingBox kptMatches =
        .ok { boundingBox with
          keypoints := boundingBox.keypoints ++
            (kptMatches.filter (fun m => inRoi boundingBox.roi kptsCurr m &&
              withinCutoff norm kptsPrev kptsCurr cutoff m)).map (currKptOf kptsCurr)
          kptMatches := boundingBox.kptMatches ++
            kptMatches.filter (fun m => inRoi boundingBox.roi kptsCurr m &&
              withinCutoff norm kptsPrev kptsCurr cutoff m) } ∧
      (kptMatches.filter (fun m => inRoi boundingBox.roi kptsCurr m &&
          withinCutoff norm kptsPrev kptsCurr cutoff m)).length ≤
        (kptMatches.filter (inRoi boundingBox.roi kptsCurr)).length ∧
      (∀ euclideanDistances,
        collectDistances norm boundingBox.roi kptsPrev kptsCurr kptMatches =
          .ok euclideanDistances →
        clusterKptMatchesWithROI norm boundingBox kptsPrev kptsCurr kptMatches =
          readCutoff euclideanDistances >>= fun c =>
            retainInliers norm kptsPrev kptsCurr c boundingBox kptMatches) := by
  refine ⟨?_, ?_, ?_⟩
  · unfold retainInliers
    rw [foldlM_eq_foldl _ (retainPure norm kptsPrev kptsCurr cutoff) kptMatches
      (fun s m hm => retainStep_eq norm kptsPrev kptsCurr cutoff s m (hin m hm))]
    rw [retainPure_fold norm kptsPrev kptsCurr cutoff boundingBox.roi kptMatches boundingBox rfl]
  · rw [← List.filter_filter]
    exact ((List.filter_sublist kptMatches).filter _).length_le
  · intro ds hds
    unfold clusterKptMatchesWithROI
    rw [hds]
    rfl

/-- The re-scan loop on ten in-rectangle correspondences with the cutoff 8, the
displacement at position `r_offset` from `crbegin()`. -/
theorem retainInliers_appends_exactly_within_cutoff_witness :
    (∀ m ∈ identityMatches 10, InRange tenPrevKpts tenCurrKpts m) ∧
    retainInliers axisNorm tenPrevKpts tenCurrKpts 8 squareBox (identityMatches 10) =
      .ok { squareBox with
        keypoints := kptsOnAxis [1, 2, 3, 4, 5, 6, 7, 8]
        kptMatches := identityMatches 8 } :=
  ⟨by decide!,
    ((retainInliers_appends_exactly_within_cutoff axisNorm squareBox tenPrevKpts tenCurrKpts
      (identityMatches 10) 8 (by decide!)).1).trans (by decide!)⟩

/-- C8, evaluated on the code: `clusterKptMatchesWithROI` returns on no input. When
the first loop succeeds, the cutoff is read `r_offset` positions past `crend()` of
the displacement multiset, outside it, and the call ends there, before the re-scan
loop: no cutoff is defined and no set of appended correspondences. On the ten
displacements 1, ..., 10 the cutoff of the 0.8 rank, at position `r_offset` from
`crbegin()`, is 8, and the in-rectangle correspondences within it are the first eight. -/
theorem clusterKptMatchesWithROI_never_returns (norm : ℚ → ℚ → ℚ) (boundingBox : BoundingBox)
    (kptsPrev kptsCurr : List KeyPoint) (kptMatches : List DMatch) :
    (∀ out, clusterKptMatchesWithROI norm boundingBox kptsPrev kptsCurr kptMatches ≠ .ok out) ∧
      (∀ euclideanDistances,
        collectDistances norm boundingBox.roi kptsPrev kptsCurr kptMatches =
          .ok euclideanDistances →
        clusterKptMatchesWithROI norm boundingBox kptsPrev kptsCurr kptMatches =
          .error .outOfRange) ∧
      derefReverse [1, 2, 3, 4, 5, 6, 7, 8, 9, 10] (rOffset 10) = .ok 8 ∧
      (identityMatches 10).filter (fun m => inRoi squareBox.roi tenCurrKpts m &&
        withinCutoff axisNorm tenPrevKpts tenCurrKpts 8 m) = identityMatches 8 := by
  have hds : ∀ euclideanDistances,
      collectDistances norm boundingBox.roi kptsPrev kptsCurr kptMatches =
        .ok euclideanDistances →
      clusterKptMatchesWithROI norm boundingBox kptsPrev kptsCurr kptMatches =
        .error .outOfRange := by
    intro ds hds
    unfold clusterKptMatchesWithROI
    rw [hds]
    show (readCutoff ds >>= fun c =>
      retainInliers norm kptsPrev kptsCurr c boundingBox kptMatches) = _
    rw [readCutoff_out_of_range]
    rfl
  refine ⟨?_, hds, by decide!, by decide!⟩
  intro out hout
  cases hc : collectDistances norm boundingBox.roi kptsPrev kptsCurr kptMatches with
  | error e =>
    unfold clusterKptMatchesWithROI at hout
    rw [hc] at hout
    cases hout
  | ok ds =>
    rw [hds ds hc] at hout
    cases hout

theorem collectStep_outside (norm : ℚ → ℚ → ℚ) (roi : Rect) (kptsPrev kptsCurr : List KeyPoint)
    (ds : List ℚ) (m : DMatch) (currKpt : KeyPoint)
    (hk : vecAtInt kptsCurr m.trainIdx = .ok currKpt)
    (hout : roi.contains currKpt.pt.toPoint = false) :
    collectStep norm roi kptsPrev kptsCurr ds m = .ok ds := by
  unfold collectStep
  simp [hk, hout, bind, Except.bind, pure, Except.pure]

theorem retainStep_outside (norm : ℚ → ℚ → ℚ) (kptsPrev kptsCurr : List KeyPoint) (cutoff : ℚ)
    (boundingBox : BoundingBox) (m : DMatch) (currKpt : KeyPoint)
    (hk : vecAtInt kptsCurr m.trainIdx = .ok currKpt)
    (hout : boundingBox.roi.contains currKpt.pt.toPoint = false) :
    retainStep norm kptsPrev kptsCurr cutoff boundingBox m = .ok boundingBox := by
  unfold retainStep
  simp [hk, hout, bind, Except.bind, pure, Except.pure]

theorem foldlM_const {σ β : Type} (f : σ → β → Except Fault σ) (l : List β) (s : σ)
    (h : ∀ x, x ∈ l → f s x = .ok s) : l.foldlM f s = .ok s := by
  induction l with
  | nil => rfl
  | cons a t ih =>
    rw [List.foldlM_cons, h a (List.mem_cons_self _ _)]
    exact ih (fun x hx => h x (List.mem_cons_of_mem _ hx))

/-- C9, evaluated on the code: for `squareBox` and two correspondences whose
current-frame keypoints lie outside its rectangle the displacement multiset is empty;
no guard stands before the cutoff read, the cutoff is read from the empty multiset,
out of range, and the call does not return the unchanged region. -/
theorem clusterKptMatchesWithROI_empty_not_guarded :
    collectDistances axisNorm squareBox.roi tenPrevKpts outsideKpts (identityMatches 2) =
        .ok [] ∧
      readCutoff [] = .error .outOfRange ∧
      clusterKptMatchesWithROI axisNorm squareBox tenPrevKpts outsideKpts (identityMatches 2) ≠
        .ok squareBox := by
  decide!

/-- For every region with zero in-rectangle correspondences (every current-frame
index in range, every current-frame keypoint outside the rectangle) the displacement
multiset is empty, the cutoff is read from it out of range and the call ends in that
fault; the re-scan loop itself, for any cutoff value, retains nothing and returns the
region unchanged. -/
theorem clusterKptMatchesWithROI_empty_region (norm : ℚ → ℚ → ℚ)
    (boundingBox : BoundingBox) (kptsPrev kptsCurr : List KeyPoint)
    (kptMatches : List DMatch)
    (hzero : ∀ m ∈ kptMatches, ∃ currKpt, vecAtInt kptsCurr m.trainIdx = .ok currKpt ∧
      boundingBox.roi.contains currKpt.pt.toPoint = false) :
    collectDistances norm boundingBox.roi kptsPrev kptsCurr kptMatches = .ok [] ∧
      clusterKptMatchesWithROI norm boundingBox kptsPrev kptsCurr kptMatches =
        .error .outOfRange ∧
      ∀ cutoff : ℚ,
        retainInliers norm kptsPrev kptsCurr cutoff boundingBox kptMatches =
          .ok boundingBox := by
  have h1 : collectDistances norm boundingBox.roi kptsPrev kptsCurr kptMatches = .ok [] := by
    unfold collectDistances
    apply foldlM_const
    intro m hm
    obtain ⟨k, hk, hout⟩ := hzero m hm
    exact collectStep_outside norm _ kptsPrev kptsCurr [] m k hk hout
  refine ⟨h1, ?_, ?_⟩
  · unfold clusterKptMatchesWithROI
    rw [h1]
    show (readCutoff [] >>= fun c => retainInliers norm kptsPrev kptsCurr c boundingBox kptMatches)
      = _
    rw [readCutoff_out_of_range]
    rfl
  · intro cutoff
    unfold retainInliers
    apply foldlM_const
    intro m hm
    obtain ⟨k, hk, hout⟩ := hzero m hm
    exact retainStep_outside norm kptsPrev kptsCurr cutoff boundingBox m k hk hout

/-- The lemma above on `squareBox` and two keypoints outside it. -/
theorem clusterKptMatchesWithROI_empty_region_witness :
    collectDistances axisNorm squareBox.roi tenPrevKpts outsideKpts (identityMatches 2) =
        .ok [] ∧
      clusterKptMatchesWithROI axisNorm squareBox tenPrevKpts outsideKpts (identityMatches 2) =
        .error .outOfRange ∧
      ∀ cutoff : ℚ,
        retainInliers axisNorm tenPrevKpts outsideKpts cutoff squareBox (identityMatches 2) =
          .ok squareBox :=
  clusterKptMatchesWithROI_empty_region axisNorm squareBox tenPrevKpts outsideKpts
    (identityMatches 2) (by
      intro m hm
      have h : m = ⟨0, 0⟩ ∨ m = ⟨1, 1⟩ := by
        simpa [identityMatches, List.range_succ] using hm
      rcases h with h | h
      · exact ⟨mkKpt 200 0, by rw [h]; decide!, by decide!⟩
      · exact ⟨mkKpt 300 0, by rw [h]; decide!, by decide!⟩)

/-! ### The loops of computeTTCCamera -/

theorem foldlM_append_each {α β : Type} (f : List α → β → Except Fault (List α))
    (g : β → List α) (l : List β) (h : ∀ s x, x ∈ l → f s x = .ok (s ++ g x)) (s : List α) :
    l.foldlM f s = .ok (s ++ l.flatMap g) := by
  induction l generalizing s with
  | nil => simp [pure, Except.pure]
  | cons a t ih =>
    rw [List.foldlM_cons, h s a (List.mem_cons_self _ _)]
    show t.foldlM f (s ++ g a) = _
    rw [ih (fun s x hx => h s x (List.mem_cons_of_mem _ hx))]
    simp [List.flatMap_cons]

theorem ratioStep_eq (norm : ℚ → ℚ → ℚ) (kptsPrev kptsCurr : List KeyPoint) (a b : DMatch)
    (kpOuterCurr kpOuterPrev : KeyPoint)
    (hc : vecAtInt kptsCurr a.trainIdx = .ok kpOuterCurr)
    (hp : vecAtInt kptsPrev a.queryIdx = .ok kpOuterPrev)
    (hb : InRange kptsPrev kptsCurr b) (distRatios : List ℚ) :
    ratioStep norm kptsPrev kptsCurr kpOuterCurr kpOuterPrev distRatios b =
      .ok (distRatios ++ (pairRatio norm kptsPrev kptsCurr a b).toList) := by
  obtain ⟨hq0, hq1, ht0, ht1⟩ := hb
  obtain ⟨bc, hbc⟩ := vecAtInt_ok_of_inRange ht0 ht1
  obtain ⟨bp, hbp⟩ := vecAtInt_ok_of_inRange hq0 hq1
  unfold ratioStep pairRatio
  simp only [hc, hp, hbc, hbp, bind, Except.bind, pure, Except.pure]
  split <;> simp

/-- Characterisation of the loops of `computeTTCCamera` on a non-empty correspondence
list with in-range indices: the ratios are collected, in order, for every pair made
of an element other than the last and an element other than the first. -/
theorem collectDistRatios_eq (norm : ℚ → ℚ → ℚ) (kptsPrev kptsCurr : List KeyPoint)
    (kptMatches : List DMatch) (hne : kptMatches ≠ [])
    (hin : ∀ m ∈ kptMatches, InRange kptsPrev kptsCurr m) :
    collectDistRatios norm kptsPrev kptsCurr kptMatches =
      .ok (kptMatches.dropLast.flatMap fun a =>
        (kptMatches.tail.flatMap fun b => (pairRatio norm kptsPrev kptsCurr a b).toList)) := by
  unfold collectDistRatios
  match kptMatches, hne, hin with
  | x :: rest, _, hin =>
    show (x :: rest).dropLast.foldlM (outerStep norm kptsPrev kptsCurr (x :: rest)) [] = _
    rw [foldlM_append_each _ (fun a =>
      ((x :: rest).tail.flatMap fun b => (pairRatio norm kptsPrev kptsCurr a b).toList))]
    · simp
    · intro s a ha
      have ha2 : a ∈ x :: rest := List.dropLast_subset _ ha
      obtain ⟨hq0, hq1, ht0, ht1⟩ := hin a ha2
      obtain ⟨kc, hkc⟩ := vecAtInt_ok_of_inRange ht0 ht1
      obtain ⟨kp, hkp⟩ := vecAtInt_ok_of_inRange hq0 hq1
      unfold outerStep
      simp only [hkc, hkp, bind, Except.bind]
      apply foldlM_append_each
      intro s2 b hb
      exact ratioStep_eq norm kptsPrev kptsCurr a b kc kp hkc hkp
        (hin b (List.mem_of_mem_tail hb)) s2

/-- C10, evaluated on the code: for four correspondences whose six unordered pairs
all pass the thresholds, `computeTTCCamera` collects seven ratios, not six: the ratio
3/2 of the pair of correspondences 1 and 2 is collected twice, once as (1, 2) and once
as (2, 1), because the inner loop starts at `begin() + 1` for every outer element. -/
theorem collectDistRatios_counts_pair_twice :
    collectDistRatios axisNorm fourPrevKpts fourCurrKpts (identityMatches 4) =
        .ok [2, 5 / 3, 15 / 7, 3 / 2, 13 / 6, 3 / 2, 5 / 2] ∧
      unorderedPairRatios axisNorm fourPrevKpts fourCurrKpts (identityMatches 4) =
        [2, 5 / 3, 15 / 7, 3 / 2, 13 / 6, 5 / 2] ∧
      pairRatio axisNorm fourPrevKpts fourCurrKpts ⟨1, 1⟩ ⟨2, 2⟩ = some (3 / 2) ∧
      List.count (3 / 2 : ℚ) [2, 5 / 3, 15 / 7, 3 / 2, 13 / 6, 3 / 2, 5 / 2] = 2 := by
  decide!

/-! ### Heap steps of computeTTCLidar: lengths and permutations -/

theorem swapAt_length {α : Type} (v : List α) (i j : Nat) : (swapAt v i j).length = v.length := by
  unfold swapAt
  split <;> simp

theorem swapAt_perm {α : Type} [DecidableEq α] (v : List α) (i j : Nat) :
    (swapAt v i j).Perm v := by
  unfold swapAt
  split
  · rename_i a b ha hb
    have hi : i < v.length := by
      by_contra h
      rw [List.getElem?_eq_none (by omega)] at ha
      cases ha
    have hj : j < v.length := by
      by_contra h
      rw [List.getElem?_eq_none (by omega)] at hb
      cases hb
    have hai : v[i] = a := by
      rw [List.getElem?_eq_getElem hi] at ha
      exact Option.some.inj ha
    have hbj : v[j] = b := by
      rw [List.getElem?_eq_getElem hj] at hb
      exact Option.some.inj hb
    rw [List.perm_iff_count]
    intro x
    have hj2 : j < (v.set i b).length := by simpa using hj
    rw [List.count_set _ _ _ _ hj2, List.count_set _ _ _ _ hi]
    have hget : (v.set i b)[j] = if i = j then b else v[j] := by
      rw [List.getElem_set]
    rw [hget, hai]
    have hca : a = x → 0 < List.count x v := by
      intro e
      rw [← e, ← hai]
      exact List.count_pos_iff.mpr (List.getElem_mem hi)
    have hcb : b = x → 0 < List.count x v := by
      intro e
      rw [← e, ← hbj]
      exact List.count_pos_iff.mpr (List.getElem_mem hj)
    by_cases hij : i = j
    · subst hij
      have hab : a = b := by rw [← hai, ← hbj]
      subst hab
      by_cases hax : a = x
      · have := hca hax
        simp [hax]
        omega
      · simp [hax]
    · rw [if_neg hij, hbj]
      by_cases hax : a = x
      · by_cases hbx : b = x
        · have := hca hax
          simp [hax, hbx]
          omega
        · have := hca hax
          simp [hax, hbx]
          omega
      · by_cases hbx : b = x
        · simp [hax, hbx]
        · simp [hax, hbx]
  · exact List.Perm.refl _

theorem siftDown_length {α : Type} (comp : α → α → Bool) (len fuel : Nat) :
    ∀ (v : List α) (hole : Nat), (siftDown comp len fuel v hole).length = v.length := by
  induction fuel with
  | zero => intro v hole; rfl
  | succ fuel ih =>
    intro v hole
    unfold siftDown
    simp only
    split
    · split
      · split
        · rfl
        · rw [ih, swapAt_length]
      · rfl
    · rfl

theorem siftDown_perm {α : Type} [DecidableEq α] (comp : α → α → Bool) (len fuel : Nat) :
    ∀ (v : List α) (hole : Nat), (siftDown comp len fuel v hole).Perm v := by
  induction fuel with
  | zero => intro v hole; exact List.Perm.refl _
  | succ fuel ih =>
    intro v hole
    unfold siftDown
    simp only
    split
    · split
      · split
        · exact List.Perm.refl _
        · exact (ih _ _).trans (swapAt_perm _ _ _)
      · exact List.Perm.refl _
    · exact List.Perm.refl _

theorem foldl_preserves {σ β : Type} (P : σ → Prop) (f : σ → β → σ) (l : List β)
    (hstep : ∀ s x, P s → P (f s x)) : ∀ s, P s → P (l.foldl f s) := by
  induction l with
  | nil => intro s hs; exact hs
  | cons a t ih => intro s hs; exact ih _ (hstep s a hs)

theorem makeHeap_length {α : Type} (comp : α → α → Bool) (v : List α) :
    (makeHeap comp v).length = v.length := by
  unfold makeHeap
  split
  · rfl
  · exact foldl_preserves (fun w => w.length = v.length)
      (fun w parent => siftDown comp v.length v.length w parent) _
      (fun s x hs => by
        show (siftDown comp v.length v.length s x).length = v.length
        rw [siftDown_length]; exact hs) v rfl

theorem makeHeap_perm {α : Type} [DecidableEq α] (comp : α → α → Bool) (v : List α) :
    (makeHeap comp v).Perm v := by
  unfold makeHeap
  split
  · exact List.Perm.refl _
  · exact foldl_preserves (fun w => w.Perm v)
      (fun w parent => siftDown comp v.length v.length w parent) _
      (fun s x hs => (siftDown_perm comp v.length v.length s x).trans hs) v (List.Perm.refl _)

theorem sortHeap_ok {α : Type} [DecidableEq α] (comp : α → α → Bool) (v : List α) (k : Nat)
    (hk : k ≤ v.length) :
    ∃ w, sortHeap comp v k = .ok w ∧ w.length = v.length ∧ w.Perm v := by
  unfold sortHeap
  rw [if_pos hk]
  refine ⟨_, rfl, ?_, ?_⟩
  · exact foldl_preserves (fun w => w.length = v.length)
      (fun w last => siftDown comp last last (swapAt w 0 last) 0) _
      (fun s x hs => by
        show (siftDown comp x x (swapAt s 0 x) 0).length = v.length
        rw [siftDown_length, swapAt_length]; exact hs) v rfl
  · exact foldl_preserves (fun w => w.Perm v)
      (fun w last => siftDown comp last last (swapAt w 0 last) 0) _
      (fun s x hs => ((siftDown_perm comp x x (swapAt s 0 x) 0).trans
        (swapAt_perm s 0 x)).trans hs) v (List.Perm.refl _)

theorem heapSteps_ok (lidarPoints : List LidarPoint) (hk : lidarK ≤ lidarPoints.length) :
    ∃ w, heapSteps lidarPoints = .ok w ∧ w.length = lidarPoints.length ∧
      w.Perm lidarPoints := by
  unfold heapSteps
  obtain ⟨w, h1, h2, h3⟩ := sortHeap_ok cmpFunc (makeHeap cmpFunc lidarPoints) lidarK
    (by rw [makeHeap_length]; exact hk)
  exact ⟨w, h1, by rw [h2, makeHeap_length], h3.trans (makeHeap_perm _ _)⟩

theorem foldl_add_x (l : List LidarPoint) (s : ℚ) :
    l.foldl (fun sum lp => sum + lp.x) s = s + (l.map (fun lp => lp.x)).sum := by
  induction l generalizing s with
  | nil => simp
  | cons a t ih =>
    rw [List.foldl_cons, ih]
    simp [add_assoc]

theorem meanX_ok (lidarPoints : List LidarPoint) (hk : lidarK ≤ lidarPoints.length) :
    meanX lidarPoints =
      .ok (((lidarPoints.take lidarK).map (fun lp => lp.x)).sum / lidarP) := by
  unfold meanX accumulateX
  rw [if_pos hk, foldl_add_x]
  simp [bind, Except.bind, pure, Except.pure]

/-! ### Claims on computeTTCLidar -/

theorem computeTTCLidar_eq (lidarPointsPrev lidarPointsCurr : List LidarPoint) (frameRate : ℚ)
    (hp : lidarK ≤ lidarPointsPrev.length) (hc : lidarK ≤ lidarPointsCurr.length) :
    ∃ prev curr, heapSteps lidarPointsPrev = .ok prev ∧ heapSteps lidarPointsCurr = .ok curr ∧
      prev.length = lidarPointsPrev.length ∧ curr.length = lidarPointsCurr.length ∧
      prev.Perm lidarPointsPrev ∧ curr.Perm lidarPointsCurr ∧
      computeTTCLidar lidarPointsPrev lidarPointsCurr frameRate =
        .ok (prev, curr,
          Dbl.div (Dbl.mul (.fin ((selectedXs curr).sum / lidarP))
              (Dbl.div (.fin 1) (.fin frameRate)))
            (.fin ((selectedXs prev).sum / lidarP - (selectedXs curr).sum / lidarP))) := by
  obtain ⟨prev, hp1, hp2, hp3⟩ := heapSteps_ok lidarPointsPrev hp
  obtain ⟨curr, hc1, hc2, hc3⟩ := heapSteps_ok lidarPointsCurr hc
  refine ⟨prev, curr, hp1, hc1, hp2, hc2, hp3, hc3, ?_⟩
  unfold computeTTCLidar
  have hcond : ¬ ¬ (lidarK ≤ lidarPointsPrev.length ∧ lidarK ≤ lidarPointsCurr.length) :=
    fun h => h ⟨hp, hc⟩
  rw [if_neg hcond, hp1, hc1]
  simp only [bind, Except.bind, meanX_ok prev (by rw [hp2]; exact hp),
    meanX_ok curr (by rw [hc2]; exact hc), pure, Except.pure, selectedXs]

/-- C13, evaluated on the code: for fourteen points whose forward distances
1, 100, 2, 101, 102, 50, 3, 103, 104, 105, 106, 51, 52, 4 already form a min-heap,
the heap steps leave 106, 105, ..., 3, 2, 1 in the first thirteen places and 4 in
the last one; the thirteen smallest distances are 1, 2, 3, 4, 50, ..., 105, so the
first thirteen elements hold 106 and miss 4. -/
theorem heapSteps_first_K_not_K_smallest :
    makeHeap cmpFunc (lidarOnAxis skewedHeapXs) = lidarOnAxis skewedHeapXs ∧
      heapSteps (lidarOnAxis skewedHeapXs) =
        .ok (lidarOnAxis [106, 105, 104, 103, 102, 101, 100, 52, 51, 50, 3, 2, 1, 4]) ∧
      (skewedHeapXs.insertionSort (· ≤ ·)).take lidarK =
        [1, 2, 3, 4, 50, 51, 52, 100, 101, 102, 103, 104, 105] ∧
      (4 : ℚ) ∉ [106, 105, 104, 103, 102, 101, 100, 52, 51, 50, 3, 2, (1 : ℚ)] ∧
      (106 : ℚ) ∉ [1, 2, 3, 4, 50, 51, 52, 100, 101, 102, 103, 104, (105 : ℚ)] := by
  decide!

/-- C15, evaluated on the code: for thirteen points at forward distance 10 the value
`prevMeanX` is 26, the sum of all thirteen distances divided by 5; it is not the mean
of five of the points and lies above the largest forward distance, 10. -/
theorem meanX_sums_K_divides_by_P :
    heapSteps (lidarOnAxis (List.replicate 13 10)) = .ok (lidarOnAxis (List.replicate 13 10)) ∧
      meanX (lidarOnAxis (List.replicate 13 10)) = .ok 26 ∧
      (∀ x ∈ selectedXs (lidarOnAxis (List.replicate 13 10)), x = 10) ∧
      (26 : ℚ) = (13 * 10) / 5 := by
  refine ⟨by decide!, by decide!, ?_, by norm_num⟩
  intro x hx
  simp [selectedXs, lidarOnAxis, lidarK] at hx
  exact hx

/-- C16: `computeTTCLidar` ends in the assertion failure exactly when the previous or
the current vector has fewer than 13 points; when both have at least 13 it returns
the vectors and a TTC value, and it never leaves a vector. -/
theorem computeTTCLidar_fails_iff_fewer_than_K (lidarPointsPrev lidarPointsCurr : List LidarPoint)
    (frameRate : ℚ) :
    (computeTTCLidar lidarPointsPrev lidarPointsCurr frameRate = .error .assertFailed ↔
        (lidarPointsPrev.length < 13 ∨ lidarPointsCurr.length < 13)) ∧
      ((13 ≤ lidarPointsPrev.length ∧ 13 ≤ lidarPointsCurr.length) →
        ∃ r, computeTTCLidar lidarPointsPrev lidarPointsCurr frameRate = .ok r) ∧
      computeTTCLidar lidarPointsPrev lidarPointsCurr frameRate ≠ .error .outOfRange := by
  by_cases h : lidarK ≤ lidarPointsPrev.length ∧ lidarK ≤ lidarPointsCurr.length
  · obtain ⟨prev, curr, _, _, _, _, _, _, heq⟩ :=
      computeTTCLidar_eq lidarPointsPrev lidarPointsCurr frameRate h.1 h.2
    have h13 : 13 ≤ lidarPointsPrev.length ∧ 13 ≤ lidarPointsCurr.length := h
    rw [heq]
    refine ⟨⟨fun e => (by cases e), fun e => (by omega)⟩, fun _ => ⟨_, rfl⟩, fun e => (by cases e)⟩
  · have herr : computeTTCLidar lidarPointsPrev lidarPointsCurr frameRate =
        .error .assertFailed := by
      unfold computeTTCLidar
      rw [if_pos h]
    have h13 : ¬ (13 ≤ lidarPointsPrev.length ∧ 13 ≤ lidarPointsCurr.length) := h
    rw [herr]
    refine ⟨⟨fun _ => (by omega), fun _ => rfl⟩, fun hh => absurd hh h13, fun e => (by cases e)⟩

/-- C17, refuted on the code: thirteen points given in ascending forward distance
1, ..., 13 leave `computeTTCLidar` in descending order, for the previous and for the
current vector. -/
theorem computeTTCLidar_reorders_inputs :
    computeTTCLidar (lidarOnAxis ascendingXs) (lidarOnAxis ascendingXs) 10 =
        .ok (lidarOnAxis ascendingXs.reverse, lidarOnAxis ascendingXs.reverse, .posInf) ∧
      lidarOnAxis ascendingXs.reverse ≠ lidarOnAxis ascendingXs := by
  decide!

/-- C17 as amended: for two point vectors of at least 13 points each,
`computeTTCLidar` returns, and it leaves in each vector the same points as before in
a possibly different order: each vector is a permutation of what it was. -/
theorem computeTTCLidar_permutes_inputs (lidarPointsPrev lidarPointsCurr : List LidarPoint)
    (frameRate : ℚ) (hp : lidarK ≤ lidarPointsPrev.length)
    (hc : lidarK ≤ lidarPointsCurr.length) :
    ∃ prev curr ttc,
      computeTTCLidar lidarPointsPrev lidarPointsCurr frameRate = .ok (prev, curr, ttc) ∧
      prev.Perm lidarPointsPrev ∧ curr.Perm lidarPointsCurr := by
  obtain ⟨prev, curr, _, _, _, _, hp3, hc3, heq⟩ :=
    computeTTCLidar_eq lidarPointsPrev lidarPointsCurr frameRate hp hc
  exact ⟨prev, curr, _, heq, hp3, hc3⟩

/-- Witness of amended C17 on the ascending thirteen points. -/
theorem computeTTCLidar_permutes_inputs_witness :
    ∃ prev curr ttc,
      computeTTCLidar (lidarOnAxis ascendingXs) (lidarOnAxis ascendingXs) 10 =
        .ok (prev, curr, ttc) ∧
      prev.Perm (lidarOnAxis ascendingXs) ∧ curr.Perm (lidarOnAxis ascendingXs) :=
  computeTTCLidar_permutes_inputs (lidarOnAxis ascendingXs) (lidarOnAxis ascendingXs) 10
    (by decide!) (by decide!)

/-! ### The vote counts of matchBoundingBoxes (lines 306-327) -/

theorem incrementVote_eq {cnt : List (List Nat)} {rows cols p c : Nat}
    (hm : IsMatrix cnt rows cols) (hp : p < rows) (hc : c < cols) :
    incrementVote cnt p c = .ok (cnt.set p ((cnt.getD p []).set c (cell cnt p c + 1))) := by
  have hrow := vecAt_row hm hp
  have hcell := vecAt_cell hm hp hc
  have hlen : c < (cnt.getD p []).length := by rw [hrow.2]; exact hc
  have hlen2 : p < cnt.length := by rw [hm.1]; exact hp
  unfold incrementVote
  simp only [hrow.1, hcell, vecSet, hlen, hlen2, if_true, bind, Except.bind]

theorem cell_set (cnt : List (List Nat)) {rows cols p c : Nat}
    (hm : IsMatrix cnt rows cols) (hp : p < rows) (hc : c < cols) (v : Nat) (i j : Nat) :
    cell (cnt.set p ((cnt.getD p []).set c v)) i j =
      if i = p ∧ j = c then v else cell cnt i j := by
  have hlen2 : p < cnt.length := by rw [hm.1]; exact hp
  have hlen : c < (cnt.getD p []).length := by rw [(vecAt_row hm hp).2]; exact hc
  unfold cell
  simp only [List.getD_eq_getElem?_getD, List.getElem?_set]
  by_cases hi : i = p
  · subst hi
    simp only [hlen2, if_true, true_and, Option.getD_some]
    by_cases hj : j = c
    · subst hj
      have hlen3 : j < (cnt[i]?.getD []).length := by
        simpa [List.getD_eq_getElem?_getD] using hlen
      simp [hlen3]
    · have hj2 : ¬ c = j := fun e => hj e.symm
      simp [hj, hj2]
  · have hi2 : ¬ p = i := fun e => hi e.symm
    simp [hi, hi2]

theorem votes_inner {rows cols p : Nat} (hp : p < rows) (l : List Nat)
    (hl : ∀ c ∈ l, c < cols) :
    ∀ cnt : List (List Nat), IsMatrix cnt rows cols →
      ∃ out, l.foldlM (fun c2 currBBID => incrementVote c2 p currBBID) cnt = .ok out ∧
        IsMatrix out rows cols ∧
        ∀ i j, cell out i j = cell cnt i j + (if i = p then l.count j else 0) := by
  induction l with
  | nil =>
    intro cnt hm
    exact ⟨cnt, rfl, hm, fun i j => by simp⟩
  | cons c t ih =>
    intro cnt hm
    have hc : c < cols := hl c (List.mem_cons_self _ _)
    have e := incrementVote_eq hm hp hc
    have hm2 := incrementVote_isMatrix hm e
    obtain ⟨out, h1, h2, h3⟩ := ih (fun x hx => hl x (List.mem_cons_of_mem _ hx)) _ hm2
    refine ⟨out, ?_, h2, ?_⟩
    · rw [List.foldlM_cons, e]
      exact h1
    · intro i j
      rw [h3 i j, cell_set cnt hm hp hc]
      by_cases hi : i = p
      · by_cases hj : j = c
        · subst hi hj
          simp [List.count_cons]
          omega
        · have hj2 : ¬ c = j := fun e => hj e.symm
          simp [hi, hj, List.count_cons, hj2]
      · simp [hi]

theorem votes_outer {rows cols : Nat} (l1 l2 : List Nat) (h1 : ∀ p ∈ l1, p < rows)
    (h2 : ∀ c ∈ l2, c < cols) :
    ∀ cnt : List (List Nat), IsMatrix cnt rows cols →
      ∃ out, l1.foldlM (fun c1 prevBBID =>
          l2.foldlM (fun c2 currBBID => incrementVote c2 prevBBID currBBID) c1) cnt = .ok out ∧
        IsMatrix out rows cols ∧
        ∀ i j, cell out i j = cell cnt i j + l1.count i * l2.count j := by
  induction l1 with
  | nil =>
    intro cnt hm
    exact ⟨cnt, rfl, hm, fun i j => by simp⟩
  | cons p t ih =>
    intro cnt hm
    have hp : p < rows := h1 p (List.mem_cons_self _ _)
    obtain ⟨mid, e1, hm2, hc2⟩ := votes_inner hp l2 h2 cnt hm
    obtain ⟨out, e3, hm3, hc3⟩ := ih (fun x hx => h1 x (List.mem_cons_of_mem _ hx)) mid hm2
    refine ⟨out, ?_, hm3, ?_⟩
    · rw [List.foldlM_cons, e1]
      exact e3
    · intro i j
      rw [hc3 i j, hc2 i j]
      by_cases hi : i = p
      · subst hi
        simp [List.count_cons, Nat.add_mul]
        omega
      · have hi2 : ¬ p = i := fun e => hi e.symm
        simp [hi, List.count_cons, hi2]

theorem count_findBoundingBoxes (kpt : KeyPoint) (bounding_boxes : List BoundingBox) (i : Nat) :
    (findBoundingBoxesContainingKeypoint kpt bounding_boxes).count i =
      match bounding_boxes[i]? with
      | some b => if b.roi.contains kpt.pt.toPoint then 1 else 0
      | none => 0 := by
  unfold findBoundingBoxesContainingKeypoint
  have hnd : ((List.range bounding_boxes.length).filter fun i =>
      match bounding_boxes[i]? with
      | some b => b.roi.contains kpt.pt.toPoint
      | none => false).Nodup := (List.nodup_range _).filter _
  by_cases hi : i < bounding_boxes.length
  · rw [List.getElem?_eq_getElem hi]
    by_cases hc : bounding_boxes[i].roi.contains kpt.pt.toPoint = true
    · simp only [hc, if_true]
      apply List.count_eq_one_of_mem hnd
      apply List.mem_filter.mpr
      refine ⟨List.mem_range.mpr hi, ?_⟩
      simp [List.getElem?_eq_getElem hi, hc]
    · simp only [hc]
      apply List.count_eq_zero_of_not_mem
      intro hmem
      have := (List.mem_filter.mp hmem).2
      simp [List.getElem?_eq_getElem hi] at this
      exact hc this
  · rw [List.getElem?_eq_none (by omega)]
    apply List.count_eq_zero_of_not_mem
    intro hmem
    exact hi (List.mem_range.mp (List.mem_filter.mp hmem).1)

theorem voteForMatch_cell {prevFrame currFrame : DataFrame} {cnt : List (List Nat)} {m : DMatch}
    (hm : IsMatrix cnt prevFrame.boundingBoxes.length currFrame.boundingBoxes.length)
    (hin : InRange prevFrame.keypoints currFrame.keypoints m) :
    ∃ out, voteForMatch prevFrame currFrame cnt m = .ok out ∧
      IsMatrix out prevFrame.boundingBoxes.length currFrame.boundingBoxes.length ∧
      ∀ p c, cell out p c =
        cell cnt p c + (if votesFor prevFrame currFrame p c m then 1 else 0) := by
  obtain ⟨hq0, hq1, ht0, ht1⟩ := hin
  obtain ⟨prevKpt, hp⟩ := vecAtInt_ok_of_inRange hq0 hq1
  obtain ⟨currKpt, hc⟩ := vecAtInt_ok_of_inRange ht0 ht1
  obtain ⟨out, e, hm2, hcell⟩ := votes_outer
    (findBoundingBoxesContainingKeypoint prevKpt prevFrame.boundingBoxes)
    (findBoundingBoxesContainingKeypoint currKpt currFrame.boundingBoxes)
    (fun p hp => mem_findBoundingBoxes_lt hp) (fun c hc => mem_findBoundingBoxes_lt hc) cnt hm
  refine ⟨out, ?_, hm2, ?_⟩
  · unfold voteForMatch
    simp only [hp, hc, bind, Except.bind]
    exact e
  · intro p c
    rw [hcell p c, count_findBoundingBoxes, count_findBoundingBoxes]
    unfold votesFor
    simp only [hp, hc]
    cases hpb : prevFrame.boundingBoxes[p]? with
    | none => simp
    | some pb =>
      cases hcb : currFrame.boundingBoxes[c]? with
      | none => simp
      | some cb =>
        by_cases h1 : pb.roi.contains prevKpt.pt.toPoint = true
        · by_cases h2 : cb.roi.contains currKpt.pt.toPoint = true
          · simp [h1, h2]
          · simp [h1, h2]
        · simp [h1]

theorem countVotes_fold {prevFrame currFrame : DataFrame} (kptMatches : List DMatch)
    (hin : ∀ m ∈ kptMatches, InRange prevFrame.keypoints currFrame.keypoints m) :
    ∀ cnt : List (List Nat),
      IsMatrix cnt prevFrame.boundingBoxes.length currFrame.boundingBoxes.length →
      ∃ out, kptMatches.foldlM (voteForMatch prevFrame currFrame) cnt = .ok out ∧
        ∀ p c, cell out p c =
          cell cnt p c + (kptMatches.filter (votesFor prevFrame currFrame p c)).length := by
  induction kptMatches with
  | nil =>
    intro cnt _
    exact ⟨cnt, rfl, fun p c => by simp⟩
  | cons m t ih =>
    intro cnt hm
    obtain ⟨mid, e1, hm2, hc2⟩ := voteForMatch_cell hm (hin m (List.mem_cons_self _ _))
    obtain ⟨out, e3, hc3⟩ := ih (fun x hx => hin x (List.mem_cons_of_mem _ hx)) mid hm2
    refine ⟨out, ?_, ?_⟩
    · rw [List.foldlM_cons, e1]
      exact e3
    · intro p c
      rw [hc3 p c, hc2 p c, List.filter_cons]
      by_cases hv : votesFor prevFrame currFrame p c m = true
      · simp [hv]
        omega
      · simp [hv]

/-- C18: for every correspondence list with in-range indices the voting loop of
`matchBoundingBoxes` succeeds, and every cell `cnt[p][c]` of the vote matrix it builds
equals the number of correspondences whose previous-frame keypoint lies inside the
rectangle of previous region `p` and whose current-frame keypoint lies inside the
rectangle of current region `c`. -/
theorem countVotes_counts_correspondences (kptMatches : List DMatch)
    (prevFrame currFrame : DataFrame)
    (hin : ∀ m ∈ kptMatches, InRange prevFrame.keypoints currFrame.keypoints m) :
    ∃ cnt, countVotes kptMatches prevFrame currFrame = .ok cnt ∧
      IsMatrix cnt prevFrame.boundingBoxes.length currFrame.boundingBoxes.length ∧
      ∀ p c, p < prevFrame.boundingBoxes.length → c < currFrame.boundingBoxes.length →
        cell cnt p c = (kptMatches.filter (votesFor prevFrame currFrame p c)).length := by
  have hm0 : IsMatrix (List.replicate prevFrame.boundingBoxes.length
      (List.replicate currFrame.boundingBoxes.length 0))
      prevFrame.boundingBoxes.length currFrame.boundingBoxes.length :=
    ⟨by simp, fun row hrow => by rw [List.eq_of_mem_replicate hrow]; simp⟩
  obtain ⟨cnt, e, hc⟩ := countVotes_fold kptMatches hin _ hm0
  refine ⟨cnt, e, countVotes_isMatrix e, ?_⟩
  intro p c _ _
  rw [hc p c, cell_replicate]
  simp

/-- Witness of C18 on two overlapping regions: the correspondence of the keypoint
in both regions votes for all four cells, the keypoint in no region for none. -/
theorem countVotes_counts_correspondences_witness :
    countVotes (identityMatches 3) overlapFrame overlapFrame = .ok [[1, 1], [1, 2]] ∧
    ∃ cnt, countVotes (identityMatches 3) overlapFrame overlapFrame = .ok cnt ∧
      IsMatrix cnt overlapFrame.boundingBoxes.length overlapFrame.boundingBoxes.length ∧
      ∀ p c, p < overlapFrame.boundingBoxes.length → c < overlapFrame.boundingBoxes.length →
        cell cnt p c =
          ((identityMatches 3).filter (votesFor overlapFrame overlapFrame p c)).length :=
  ⟨by decide!,
    countVotes_counts_correspondences (identityMatches 3) overlapFrame overlapFrame
      (by decide!)⟩

/-! ### Claims on the median and the TTC of computeTTCCamera -/

theorem vecAt_getD {α : Type} (v : List α) (i : Nat) (d : α) (h : i < v.length) :
    vecAt v i = .ok (v.getD i d) := by
  apply vecAt_of_getElem?
  rw [List.getElem?_eq_getElem h, List.getD_eq_getElem _ _ h]

theorem medianDistRatio_eq (distRatios : List ℚ) (hne : distRatios ≠ []) :
    medianDistRatio distRatios =
      .ok (if (distRatios.insertionSort (· ≤ ·)).length % 2 = 0 then
          ((distRatios.insertionSort (· ≤ ·)).getD
              ((distRatios.insertionSort (· ≤ ·)).length / 2 - 1) 0 +
            (distRatios.insertionSort (· ≤ ·)).getD
              ((distRatios.insertionSort (· ≤ ·)).length / 2) 0) / 2
        else (distRatios.insertionSort (· ≤ ·)).getD
          ((distRatios.insertionSort (· ≤ ·)).length / 2) 0) := by
  have hpos : 0 < (distRatios.insertionSort (· ≤ ·)).length := by
    rw [List.length_insertionSort]
    exact List.length_pos.mpr hne
  unfold medianDistRatio
  simp only
  split
  · rw [vecAt_getD _ _ 0 (by omega), vecAt_getD _ _ 0 (by omega)]
    rfl
  · rw [vecAt_getD _ _ 0 (by omega)]

/-- C19: for every non-empty collection of distance ratios and its ascending
arrangement `sorted`, the median computed by `computeTTCCamera` is the middle element
of `sorted` when the count is odd and the average of its two central elements when
the count is even; both positions lie inside the collection. -/
theorem medianDistRatio_is_middle_of_sorted (distRatios sorted : List ℚ)
    (hne : distRatios ≠ []) (hs : sorted.Sorted (· ≤ ·)) (hp : sorted.Perm distRatios) :
    medianDistRatio distRatios =
        .ok (if sorted.length % 2 = 1 then sorted.getD (sorted.length / 2) 0
          else (sorted.getD (sorted.length / 2 - 1) 0 +
            sorted.getD (sorted.length / 2) 0) / 2) ∧
      sorted.length = distRatios.length ∧
      sorted.length / 2 < sorted.length ∧
      (sorted.length % 2 = 0 → 1 ≤ sorted.length / 2) := by
  have hsort : distRatios.insertionSort (· ≤ ·) = sorted :=
    List.eq_of_perm_of_sorted ((List.perm_insertionSort _ _).trans hp.symm)
      (List.sorted_insertionSort _ _) hs
  have hlen : sorted.length = distRatios.length := hp.length_eq
  have hpos : 0 < sorted.length := by
    rw [hlen]; exact List.length_pos.mpr hne
  refine ⟨?_, hlen, by omega, fun h => by omega⟩
  rw [medianDistRatio_eq distRatios hne, hsort]
  by_cases h : sorted.length % 2 = 0
  · have h1 : ¬ sorted.length % 2 = 1 := by omega
    rw [if_pos h, if_neg h1]
  · have h1 : sorted.length % 2 = 1 := by omega
    rw [if_neg h, if_pos h1]

/-- Witness of C19, the scenario of the specification: the ratios 1.1, 0.9, 1.0,
whose ascending arrangement is 0.9, 1.0, 1.1, have median 1.0. -/
theorem medianDistRatio_is_middle_of_sorted_witness :
    medianDistRatio [11 / 10, 9 / 10, 1] = .ok 1 :=
  ((medianDistRatio_is_middle_of_sorted [11 / 10, 9 / 10, 1] [9 / 10, 1, 11 / 10]
    (by decide!) (by decide!) (by decide!)).1).trans (by decide!)

/-- Value of `computeTTCCamera` on a non-empty correspondence list with in-range
indices: the sentinel when no ratio was collected, else the TTC of the median. -/
theorem computeTTCCamera_eq (norm : ℚ → ℚ → ℚ) (kptsPrev kptsCurr : List KeyPoint)
    (kptMatches : List DMatch) (frameRate : ℚ) (hne : kptMatches ≠ [])
    (hin : ∀ m ∈ kptMatches, InRange kptsPrev kptsCurr m) :
    ∃ distRatios, collectDistRatios norm kptsPrev kptsCurr kptMatches = .ok distRatios ∧
      (distRatios = [] →
        computeTTCCamera norm kptsPrev kptsCurr kptMatches frameRate = .ok .nan) ∧
      (distRatios ≠ [] → ∃ med, medianDistRatio distRatios = .ok med ∧
        computeTTCCamera norm kptsPrev kptsCurr kptMatches frameRate =
          .ok (Dbl.div (Dbl.neg (Dbl.div (.fin 1) (.fin frameRate))) (.fin (1 - med)))) := by
  have h := collectDistRatios_eq norm kptsPrev kptsCurr kptMatches hne hin
  generalize (kptMatches.dropLast.flatMap fun a =>
    (kptMatches.tail.flatMap fun b => (pairRatio norm kptsPrev kptsCurr a b).toList)) = rs at h
  refine ⟨rs, h, ?_, ?_⟩
  · intro he
    unfold computeTTCCamera
    rw [h, he]
    rfl
  · intro hne2
    refine ⟨_, medianDistRatio_eq _ hne2, ?_⟩
    unfold computeTTCCamera
    rw [h]
    match rs, hne2 with
    | r :: t, hne2 =>
      simp only [bind, Except.bind, medianDistRatio_eq _ hne2, pure, Except.pure,
        List.isEmpty_cons]
      rfl

/-- C11, evaluated on the code: the same four correspondences in two orders give
different medians and different TTC values, 2 and 1/10 against 15/7 and 7/80: the
pair collected twice is the pair of the two middle correspondences of the list. -/
theorem computeTTCCamera_depends_on_order :
    permutedMatches.Perm (identityMatches 4) ∧
      (collectDistRatios axisNorm fourPrevKpts fourCurrKpts (identityMatches 4)).bind
        medianDistRatio = .ok 2 ∧
      (collectDistRatios axisNorm fourPrevKpts fourCurrKpts permutedMatches).bind
        medianDistRatio = .ok (15 / 7) ∧
      computeTTCCamera axisNorm fourPrevKpts fourCurrKpts (identityMatches 4) 10 =
        .ok (.fin (1 / 10)) ∧
      computeTTCCamera axisNorm fourPrevKpts fourCurrKpts permutedMatches 10 =
        .ok (.fin (7 / 80)) := by
  decide!

/-- C12, evaluated on the code: on the empty correspondence list the outer loop
bound `kptMatches.end() - 1` lies before `begin()`, the first dereference leaves the
vector and `computeTTCCamera` does not reach the sentinel; a single correspondence
reaches it. -/
theorem computeTTCCamera_empty_list_out_of_range :
    computeTTCCamera axisNorm fourPrevKpts fourCurrKpts [] 10 = .error .outOfRange ∧
      computeTTCCamera axisNorm fourPrevKpts fourCurrKpts (identityMatches 1) 10 = .ok .nan := by
  decide!

/-! ### matchBoundingBoxes on frames without regions -/

/-- The call succeeds when both frames have regions or none has (ids equal to
positions, indices in range). -/
theorem matchBoundingBoxes_ok (kptMatches : List DMatch) (bbBestMatches : List (Int × Int))
    (prevFrame currFrame : DataFrame)
    (hprev : PositionalIds prevFrame.boundingBoxes)
    (hcurr : PositionalIds currFrame.boundingBoxes)
    (h0 : prevFrame.boundingBoxes.length = 0 ↔ currFrame.boundingBoxes.length = 0)
    (hin : ∀ m ∈ kptMatches, InRange prevFrame.keypoints currFrame.keypoints m) :
    ∃ m, matchBoundingBoxes kptMatches bbBestMatches prevFrame currFrame = .ok m := by
  obtain ⟨cnt, hv⟩ := countVotes_ok kptMatches prevFrame currFrame hin
  exact ⟨_, matchBoundingBoxes_eq hv hprev hcurr h0 bbBestMatches⟩

/-- C20, evaluated on the code: with no previous region and one current region the
fill loop runs once and reads `prevFrame.boundingBoxes[0]` of the empty region list;
with one previous region and no current region it reads
`currFrame.boundingBoxes[0]`; two frames without regions give the empty map. -/
theorem matchBoundingBoxes_one_empty_frame_out_of_range :
    matchBoundingBoxes [] [] noRegionFrame oneRegionFrame = .error .outOfRange ∧
      matchBoundingBoxes [] [] oneRegionFrame noRegionFrame = .error .outOfRange ∧
      matchBoundingBoxes [] [] noRegionFrame noRegionFrame = .ok [] := by
  decide!

theorem vecAt_out_of_range {α : Type} (v : List α) (i : Nat) (h : v.length ≤ i) :
    vecAt v i = .error .outOfRange := by
  unfold vecAt
  rw [List.getElem?_eq_none h]

theorem foldlM_range_succ_error {σ : Type} (f : σ → Nat → Except Fault σ) (s : σ) (n : Nat)
    (e : Fault) (h : f s 0 = .error e) : (List.range (n + 1)).foldlM f s = .error e := by
  rw [List.range_succ_eq_map, List.foldlM_cons, h]
  rfl

/-- With no previous region and at least one current region the fill loop reads the
empty previous region list at position 0. -/
theorem matchBoundingBoxes_no_prev_region (kptMatches : List DMatch)
    (bbBestMatches : List (Int × Int)) (prevFrame currFrame : DataFrame)
    (hP : prevFrame.boundingBoxes.length = 0) (hC : 1 ≤ currFrame.boundingBoxes.length)
    (hin : ∀ m ∈ kptMatches, InRange prevFrame.keypoints currFrame.keypoints m) :
    matchBoundingBoxes kptMatches bbBestMatches prevFrame currFrame = .error .outOfRange := by
  obtain ⟨cnt, hv⟩ := countVotes_ok kptMatches prevFrame currFrame hin
  have hm := countVotes_isMatrix hv
  unfold matchBoundingBoxes
  rw [hv]
  unfold selectBestMatches
  simp only [argmaxIndices_eq hm, bind, Except.bind]
  rw [if_pos (by omega)]
  obtain ⟨n, hn⟩ : ∃ n, currFrame.boundingBoxes.length = n + 1 :=
    ⟨_, (Nat.sub_add_cancel hC).symm⟩
  have h1 : ∀ i, vecAt prevFrame.boundingBoxes i = .error .outOfRange :=
    fun i => vecAt_out_of_range _ _ (by omega)
  have h2 : vecAt (tab currFrame.boundingBoxes.length
      (fun c => colBest cnt prevFrame.boundingBoxes.length c)) 0 =
      .ok (colBest cnt prevFrame.boundingBoxes.length 0) := vecAt_tab _ (by omega)
  rw [hn] at h2 ⊢
  apply foldlM_range_succ_error
  unfold fillFromCurr
  simp only [h2, h1, bind, Except.bind]

/-- With at least one previous region and no current region the fill loop reads the
empty current region list at position 0. -/
theorem matchBoundingBoxes_no_curr_region (kptMatches : List DMatch)
    (bbBestMatches : List (Int × Int)) (prevFrame currFrame : DataFrame)
    (hP : 1 ≤ prevFrame.boundingBoxes.length) (hC : currFrame.boundingBoxes.length = 0)
    (hin : ∀ m ∈ kptMatches, InRange prevFrame.keypoints currFrame.keypoints m) :
    matchBoundingBoxes kptMatches bbBestMatches prevFrame currFrame = .error .outOfRange := by
  obtain ⟨cnt, hv⟩ := countVotes_ok kptMatches prevFrame currFrame hin
  have hm := countVotes_isMatrix hv
  unfold matchBoundingBoxes
  rw [hv]
  unfold selectBestMatches
  simp only [argmaxIndices_eq hm, bind, Except.bind]
  rw [if_neg (by omega)]
  obtain ⟨n, hn⟩ : ∃ n, prevFrame.boundingBoxes.length = n + 1 :=
    ⟨_, (Nat.sub_add_cancel hP).symm⟩
  have hlt : 0 < prevFrame.boundingBoxes.length := by omega
  have hb : ∃ b, vecAt prevFrame.boundingBoxes 0 = .ok b :=
    ⟨_, vecAt_of_getElem? (List.getElem?_eq_getElem hlt)⟩
  obtain ⟨b, hb⟩ := hb
  have h1 : ∀ i, vecAt currFrame.boundingBoxes i = .error .outOfRange :=
    fun i => vecAt_out_of_range _ _ (by omega)
  have h2 : vecAt (tab prevFrame.boundingBoxes.length
      (fun p => rowBest cnt currFrame.boundingBoxes.length p)) 0 =
      .ok (rowBest cnt currFrame.boundingBoxes.length 0) := vecAt_tab _ hlt
  rw [hn] at h2 ⊢
  apply foldlM_range_succ_error
  unfold fillFromPrev
  simp only [hb, h2, h1, bind, Except.bind]

end CamFusion
